import Mathlib

/-!
Verification of the inventory / JSON round-trip protocol of AstrodbKit2
(src/astrodbkit/astrodb.py), over a shallow embedding.

Rows are modelled as association lists from column name to scalar value
(Python dicts preserve insertion order and have unique keys); a database
state carries the schema configuration (primary table, primary key,
foreign key, reference tables, the reflected table list) together with the
per-table row contents.
-/

namespace AstroDB

/-- Scalar values stored in database cells and inventory documents.
Floating-point numbers are carried as exact rationals: the spec requires
JSON numbers to round-trip exactly for representable doubles, so the model
treats the numeric payload as preserved verbatim by the codec.
Dates and datetimes mirror Python datetime.date / datetime.datetime
(no microsecond component in the model). -/
inductive Value where
  | vnull : Value
  | vstr : String → Value
  | vint : Int → Value
  | vnum : ℚ → Value
  | vbool : Bool → Value
  | vdate : Nat → Nat → Nat → Value
  | vdatetime : Nat → Nat → Nat → Nat → Nat → Nat → Value
deriving DecidableEq, Repr

/-- JSON scalar values (the wire representation between dumps and load). -/
inductive JVal where
  | jnull : JVal
  | jstr : String → JVal
  | jint : Int → JVal
  | jnum : ℚ → JVal
  | jbool : Bool → JVal
deriving DecidableEq, Repr

/-- A row: ordered mapping from column name to value (a Python dict). -/
abbrev Row := List (String × Value)

/-- An inventory document: ordered mapping from table name to rows. -/
abbrev Document := List (String × List Row)

/-- A JSON-encoded row. -/
abbrev JRow := List (String × JVal)

/-- A JSON-encoded document. -/
abbrev JDoc := List (String × List JRow)

instance {ε α : Type} [DecidableEq ε] [DecidableEq α] : DecidableEq (Except ε α) :=
  fun a b =>
    match a, b with
    | .error e1, .error e2 =>
      if h : e1 = e2 then isTrue (by rw [h]) else
        isFalse (fun hh => h (Except.error.inj hh))
    | .ok v1, .ok v2 =>
      if h : v1 = v2 then isTrue (by rw [h]) else
        isFalse (fun hh => h (Except.ok.inj hh))
    | .error _, .ok _ => isFalse Except.noConfusion
    | .ok _, .error _ => isFalse Except.noConfusion

/-- First-match association-list lookup: Python dict access d[k]
(dict keys are unique, so first match is the only match). -/
def alookup {α : Type} (k : String) : List (String × α) → Option α
  | [] => none
  | kv :: rest => if kv.1 = k then some kv.2 else alookup k rest

/-- Python dict assignment d[k] = v: replace the value at an existing key,
otherwise append the new key at the end (insertion order). -/
def setKey {α : Type} (k : String) (v : α) : List (String × α) → List (String × α)
  | [] => [(k, v)]
  | kv :: rest => if kv.1 = k then (k, v) :: rest else kv :: setKey k v rest

/-- Python dict deletion del d[k]: drop the (unique) entry at key k.
On a dict lacking the key Python raises KeyError; the model leaves the
list unchanged in that case (callers only delete present keys). -/
def delKey {α : Type} (k : String) : List (String × α) → List (String × α)
  | [] => []
  | kv :: rest => if kv.1 = k then rest else kv :: delKey k rest

/-- The keys of an association list, in order. -/
def keysOf {α : Type} (l : List (String × α)) : List String := l.map (fun kv => kv.1)

/-! ### Python string helpers used by the export filename rule -/

/-- str.lower restricted to ASCII (identifiers in this database are ASCII). -/
def lowerStr (s : String) : String := ⟨s.data.map Char.toLower⟩

/-- Replacement of every occurrence of a nonempty pattern, on char lists
(Python str.replace semantics, leftmost-first, non-overlapping).  The fuel
argument makes the recursion structural so that the kernel can evaluate it;
each step consumes at least one character, so fuel = input length is enough. -/
def replaceFuel (pat rep : List Char) : Nat → List Char → List Char
  | _, [] => []
  | 0, l => l
  | fuel + 1, c :: rest =>
    if pat ≠ [] ∧ pat.isPrefixOf (c :: rest) then
      rep ++ replaceFuel pat rep fuel (List.drop (pat.length - 1) rest)
    else
      c :: replaceFuel pat rep fuel rest

def replaceChars (pat rep s : List Char) : List Char := replaceFuel pat rep s.length s

/-- Python str.replace on strings. -/
def pyReplace (s pat rep : String) : String := ⟨replaceChars pat.data rep.data s.data⟩

/-- Python str.strip (whitespace from both ends). -/
def pyStrip (s : String) : String :=
  ⟨(((s.data.dropWhile Char.isWhitespace).reverse.dropWhile Char.isWhitespace).reverse)⟩

/-- Python str.endswith: suffix test. -/
def pyEndsWith (s suffixStr : String) : Bool :=
  s.data.drop (s.data.length - suffixStr.data.length) == suffixStr.data

/-- Python str.startswith: prefix test. -/
def pyStartsWith (s prefixStr : String) : Bool :=
  s.data.take prefixStr.data.length == prefixStr.data

/-- The export filename rule of Database.save_json:
source_name.lower().replace(" ", "_").replace("*", "").strip() + ".json". -/
def slugFilename (s : String) : String :=
  pyStrip (pyReplace (pyReplace (lowerStr s) " " "_") "*" "") ++ ".json"

/-! ### Date and datetime rendering / parsing

Modelled from the spec: the concrete serializer hook (utils.json_serializer)
and the decoding object hook (utils.datetime_json_parser) live in
astrodbkit/utils.py, which is not part of the provided sources.  The spec
(section 4.2) states that date/datetime values are rendered as ISO-8601
strings and that decoding recognizes exactly the date pattern
YYYY-MM-DD and the datetime pattern YYYY-MM-DDTHH:MM:SS, conservatively
leaving every other string untouched. -/

/-- Numeric value of an ASCII digit character. -/
def digitVal (c : Char) : Nat := c.toNat - 48

/-- Two-digit zero-padded rendering (for n < 100). -/
def pad2 (n : Nat) : List Char := [Nat.digitChar (n / 10 % 10), Nat.digitChar (n % 10)]

/-- Four-digit zero-padded rendering (for n < 10000). -/
def pad4 (n : Nat) : List Char :=
  [Nat.digitChar (n / 1000 % 10), Nat.digitChar (n / 100 % 10),
   Nat.digitChar (n / 10 % 10), Nat.digitChar (n % 10)]

/-- ISO-8601 date rendering, as produced by datetime.date.isoformat. -/
def renderDate (y m d : Nat) : String :=
  ⟨pad4 y ++ '-' :: (pad2 m ++ '-' :: pad2 d)⟩

/-- ISO-8601 datetime rendering, as produced by datetime.datetime.isoformat
(model without microseconds). -/
def renderDateTime (y mo d h mi s : Nat) : String :=
  ⟨pad4 y ++ '-' :: (pad2 mo ++ '-' :: (pad2 d ++ 'T' ::
    (pad2 h ++ ':' :: (pad2 mi ++ ':' :: pad2 s))))⟩

/-- Field validity for Python dates: year in 1..9999, month 1..12, day 1..31
(the model is slightly coarser than per-month day counts). -/
def validDate (y m d : Nat) : Prop :=
  1 ≤ y ∧ y ≤ 9999 ∧ 1 ≤ m ∧ m ≤ 12 ∧ 1 ≤ d ∧ d ≤ 31

instance (y m d : Nat) : Decidable (validDate y m d) := by
  unfold validDate; infer_instance

/-- Time-of-day validity: hour 0..23, minute and second 0..59. -/
def validTime (h mi s : Nat) : Prop := h ≤ 23 ∧ mi ≤ 59 ∧ s ≤ 59

instance (h mi s : Nat) : Decidable (validTime h mi s) := by
  unfold validTime; infer_instance

/-- Conservative recognizer for the exact date grammar YYYY-MM-DD. -/
def parseDate (str : String) : Option (Nat × Nat × Nat) :=
  match str.data with
  | [y1, y2, y3, y4, '-', m1, m2, '-', d1, d2] =>
    if y1.isDigit && y2.isDigit && y3.isDigit && y4.isDigit &&
       m1.isDigit && m2.isDigit && d1.isDigit && d2.isDigit then
      let y := 1000 * digitVal y1 + 100 * digitVal y2 + 10 * digitVal y3 + digitVal y4
      let m := 10 * digitVal m1 + digitVal m2
      let d := 10 * digitVal d1 + digitVal d2
      if validDate y m d then some (y, m, d) else none
    else none
  | _ => none

/-- Conservative recognizer for the exact datetime grammar
YYYY-MM-DDTHH:MM:SS. -/
def parseDateTime (str : String) : Option (Nat × Nat × Nat × Nat × Nat × Nat) :=
  match str.data with
  | [y1, y2, y3, y4, '-', m1, m2, '-', d1, d2, 'T',
     h1, h2, ':', n1, n2, ':', s1, s2] =>
    if y1.isDigit && y2.isDigit && y3.isDigit && y4.isDigit &&
       m1.isDigit && m2.isDigit && d1.isDigit && d2.isDigit &&
       h1.isDigit && h2.isDigit && n1.isDigit && n2.isDigit &&
       s1.isDigit && s2.isDigit then
      let y := 1000 * digitVal y1 + 100 * digitVal y2 + 10 * digitVal y3 + digitVal y4
      let mo := 10 * digitVal m1 + digitVal m2
      let d := 10 * digitVal d1 + digitVal d2
      let h := 10 * digitVal h1 + digitVal h2
      let mi := 10 * digitVal n1 + digitVal n2
      let s := 10 * digitVal s1 + digitVal s2
      if validDate y mo d ∧ validTime h mi s then some (y, mo, d, h, mi, s) else none
    else none
  | _ => none

/-! ### The JSON codec (json.dumps with the serializer hook / json.load) -/

/-- Encoding of one value: json.dumps with the default= serializer hook,
which renders date and datetime objects via isoformat. -/
def encodeValue : Value → JVal
  | .vnull => .jnull
  | .vstr s => .jstr s
  | .vint n => .jint n
  | .vnum q => .jnum q
  | .vbool b => .jbool b
  | .vdate y m d => .jstr (renderDate y m d)
  | .vdatetime y mo d h mi s => .jstr (renderDateTime y mo d h mi s)

/-- Decoding of one value under the datetime object hook used by
Database.load_json: strings exactly matching the datetime or date grammar
become native datetime/date values; everything else passes through. -/
def decodeValueHook : JVal → Value
  | .jnull => .vnull
  | .jint n => .vint n
  | .jnum q => .vnum q
  | .jbool b => .vbool b
  | .jstr s =>
    match parseDateTime s with
    | some (y, mo, d, h, mi, sec) => .vdatetime y mo d h mi sec
    | none =>
      match parseDate s with
      | some (y, m, d) => .vdate y m d
      | none => .vstr s

/-- Decoding of one value without any object hook, as done by
Database.load_table for reference tables (plain json.load). -/
def decodeValueRaw : JVal → Value
  | .jnull => .vnull
  | .jint n => .vint n
  | .jnum q => .vnum q
  | .jbool b => .vbool b
  | .jstr s => .vstr s

def encodeRow (r : Row) : JRow := r.map (fun kv => (kv.1, encodeValue kv.2))

def decodeRowHook (r : JRow) : Row := r.map (fun kv => (kv.1, decodeValueHook kv.2))

def decodeRowRaw (r : JRow) : Row := r.map (fun kv => (kv.1, decodeValueRaw kv.2))

def encodeDoc (d : Document) : JDoc :=
  d.map (fun kv => (kv.1, kv.2.map encodeRow))

def decodeDocHook (d : JDoc) : Document :=
  d.map (fun kv => (kv.1, kv.2.map decodeRowHook))

def encodeTable (rows : List Row) : List JRow := rows.map encodeRow

def decodeTableRaw (rows : List JRow) : List Row := rows.map decodeRowRaw

/-- A value survives the encode/decode cycle of the codec: strings must not
match either recognized date grammar, and date/datetime fields must be in
the ranges Python itself enforces. -/
def Value.codecSafe : Value → Prop
  | .vstr s => parseDateTime s = none ∧ parseDate s = none
  | .vdate y m d => validDate y m d
  | .vdatetime y mo d h mi s => validDate y mo d ∧ validTime h mi s
  | _ => True

instance (v : Value) : Decidable v.codecSafe := by
  cases v <;> simp only [Value.codecSafe] <;> infer_instance

/-! ### The database model -/

/-- One reflected table: its name and its column names in schema order. -/
structure TableSchema where
  name : String
  columns : List String
deriving DecidableEq, Repr

/-- Schema configuration of a Database instance: the reflected table list
(metadata.tables, in its stable iteration order), the configuration supplied
at construction, and SQLAlchemy's dependency-sorted table list
(metadata.sorted_tables: referenced tables before their dependents). -/
structure DBSchema where
  tables : List TableSchema
  sortedTables : List String
  primaryTable : String
  primaryKey : String
  foreignKey : String
  referenceTables : List String

/-- A database state: the schema plus the stored rows of every table. -/
structure DB where
  schema : DBSchema
  rows : String → List Row

/-- Look a table schema up by name. -/
def findTable (s : DBSchema) (name : String) : Option TableSchema :=
  s.tables.find? (fun t => t.name = name)

/-- Replace the contents of one table. -/
def DB.setRows (db : DB) (name : String) (rs : List Row) : DB :=
  ⟨db.schema, fun t => if t = name then rs else db.rows t⟩

/-- Append rows to one table (a bulk INSERT). -/
def DB.appendRows (db : DB) (name : String) (rs : List Row) : DB :=
  db.setRows name (db.rows name ++ rs)

/-- SQLAlchemy insert().values(d): every key of the dict must be a column of
the table (unknown keys raise CompileError, modelled as none); columns not
mentioned in the dict become NULL; the stored row carries all columns of the
table in schema order. -/
def insertVals (cols : List String) (d : Row) : Option Row :=
  if d.all (fun kv => kv.1 ∈ cols) then
    some (cols.map (fun c => (c, (alookup c d).getD Value.vnull)))
  else none

/-- Insert a batch of row dicts into a named table (one conn.execute call).
Fails when the table is unknown or a dict mentions an unknown column. -/
def insertBatch (db : DB) (name : String) (ds : List Row) : Except String DB :=
  match findTable db.schema name with
  | none => .error "KeyError: no such table"
  | some t =>
    match ds.mapM (insertVals t.columns) with
    | none => .error "CompileError: unknown column"
    | some rs => .ok (db.appendRows name rs)

/-! ### Inventory assembly (Database.inventory) -/

/-- Database._row_cleanup: convert a result row to a dict and delete the
foreign-key column. -/
def rowCleanup (s : DBSchema) (r : Row) : Row := delKey s.foreignKey r

/-- The column Database._inventory_query filters on: the primary key for
the primary table, the foreign key for every other table. -/
def colOf (s : DBSchema) (tname : String) : String :=
  if tname = s.primaryTable then s.primaryKey else s.foreignKey

/-- The rows of a table matching the given source identifier (the filter
inside Database._inventory_query). -/
def matchingRows (db : DB) (tname : String) (x : Value) : List Row :=
  (db.rows tname).filter (fun r => alookup (colOf db.schema tname) r = some x)

/-- Database._inventory_query: query one table for the source and record the
result under the table name only when at least one row matched; the primary
table stores rows verbatim, every other table stores cleaned-up rows. -/
def inventoryQuery (db : DB) (acc : Document) (tname : String) (x : Value) : Document :=
  let results := matchingRows db tname x
  if results ≠ [] ∧ tname = db.schema.primaryTable then
    acc ++ [(tname, results)]
  else if results ≠ [] then
    acc ++ [(tname, results.map (rowCleanup db.schema))]
  else acc

/-- Database.inventory: query the primary table first, then every reflected
table that is neither a reference table nor the primary table. -/
def inventory (db : DB) (x : Value) : Document :=
  let start := inventoryQuery db [] db.schema.primaryTable x
  (db.schema.tables.map (fun t => t.name)).foldl
    (fun acc tname =>
      if tname ∈ db.schema.referenceTables ++ [db.schema.primaryTable] then acc
      else inventoryQuery db acc tname x) start

/-! ### Export (Database.save_json / save_reference_table / save_database) -/

/-- A directory of files: name to content, later writes overwrite earlier
ones with the same name. -/
def putFile {α : Type} (files : List (String × α)) (name : String) (content : α) :
    List (String × α) :=
  if (files.map (fun f => f.1)).contains name then
    files.map (fun f => if f.1 = name then (name, content) else f)
  else files ++ [(name, content)]

/-- Python str() of a stored value, used by save_json to build the
filename (exercised only on string identifiers in the proofs). -/
def pyStr : Value → String
  | .vnull => "None"
  | .vstr s => s
  | .vint n => toString n
  | .vnum q => toString q
  | .vbool true => "True"
  | .vbool false => "False"
  | .vdate y m d => renderDate y m d
  | .vdatetime y mo d h mi s => renderDateTime y mo d h mi s

/-- Database.save_json for one primary-table row: the file is named by the
slug of the identity value and holds the JSON-encoded inventory document. -/
def saveJsonFile (db : DB) (idVal : Value) : String × JDoc :=
  (slugFilename (pyStr idVal), encodeDoc (inventory db idVal))

/-- The source/ directory written by Database.save_database: one file per
primary-table row, in row order, later writes overwriting earlier ones. -/
def saveSourceFiles (db : DB) : List (String × JDoc) :=
  (db.rows db.schema.primaryTable).foldl
    (fun fs r =>
      match alookup db.schema.primaryKey r with
      | some v => putFile fs (saveJsonFile db v).1 (saveJsonFile db v).2
      | none => fs)
    []

/-- Database.save_reference_table: all rows of the table as a JSON array;
no file at all when the table is empty. -/
def saveReferenceTableFile (db : DB) (tname : String) : Option (String × List JRow) :=
  let data := db.rows tname
  if data.length > 0 then some (tname ++ ".json", encodeTable data) else none

/-- The reference/ directory written by Database.save_database: one file per
configured reference table that exists in the schema and has rows. -/
def saveRefFiles (db : DB) : List (String × List JRow) :=
  db.schema.referenceTables.foldl
    (fun fs tname =>
      if (findTable db.schema tname).isSome then
        match saveReferenceTableFile db tname with
        | some f => fs ++ [f]
        | none => fs
      else fs)
    []

/-- The on-disk output of Database.save_database: the reference/ and source/
sub-directories (the top-level directory itself holds no JSON files). -/
structure SavedDir where
  refFiles : List (String × List JRow)
  sourceFiles : List (String × JDoc)

def saveDatabase (db : DB) : SavedDir :=
  ⟨saveRefFiles db, saveSourceFiles db⟩

/-! ### Import (Database.load_table / load_json / load_database) -/

/-- The initial clearing phase of Database.load_database: delete all rows of
every table, iterating reversed(metadata.sorted_tables). -/
def clearAll (db : DB) : DB :=
  db.schema.sortedTables.reverse.foldl (fun d tname => d.setRows tname []) db

/-- The clearing phase instrumented with a conservative foreign-key check.
Modelled from the spec: metadata.sorted_tables is SQLAlchemy's topological
sort of the foreign-key dependency graph (referenced tables first), and a
DELETE on a parent table can only raise a foreign-key violation while some
dependent table still holds rows.  The check flags a deletion on table p
whenever an edge (child, p) exists whose child table is still nonempty. -/
def clearCheck (edges : List (String × String)) :
    List String → (String → List Row) → Bool
  | [], _ => false
  | p :: rest, st =>
    edges.any (fun e => e.2 == p && !(st e.1).isEmpty) ||
      clearCheck edges rest (fun t => if t = p then [] else st t)

/-- Database.load_table: look for directory/table.json; when present,
parse it (plain json.load, no datetime hook) and bulk-insert its rows;
when absent, silently skip, leaving the database unchanged. -/
def loadTable (db : DB) (files : List (String × List JRow)) (tname : String) :
    Except String DB :=
  match alookup (tname ++ ".json") files with
  | some content => insertBatch db tname (decodeTableRaw content)
  | none => .ok db

/-- The reference-table phase of Database.load_database: for each configured
reference table, load from the reference/ sub-directory when the file exists
there, otherwise fall back to the top-level directory (which save_database
leaves empty of JSON files, so the fallback silently skips). -/
def loadRefPhase (db : DB) (refFiles topFiles : List (String × List JRow)) :
    Except String DB :=
  db.schema.referenceTables.foldlM
    (fun d tname =>
      if (alookup (tname ++ ".json") refFiles).isSome then
        loadTable d refFiles tname
      else loadTable d topFiles tname)
    db

/-- The sequence of INSERT statements issued by Database.load_json for one
decoded document: first one bulk insert of the primary-table entry, then,
for every other key of the document in order, one single-row insert per row
with the foreign-key column set to the primary identity value.  The identity
value is read from the first primary row before any insert; a document
without a primary entry (KeyError) or with an empty one (IndexError) fails
before any statement is produced. -/
def loadJsonOps (s : DBSchema) (doc : Document) :
    Except String (List (String × List Row)) :=
  match alookup s.primaryTable doc with
  | none => .error "KeyError: no primary table entry"
  | some [] => .error "IndexError: empty primary table entry"
  | some (r0 :: rs) =>
    match alookup s.primaryKey r0 with
    | none => .error "KeyError: no primary key in first row"
    | some src =>
      .ok ((s.primaryTable, r0 :: rs) ::
        (doc.filter (fun kv => kv.1 ≠ s.primaryTable)).flatMap
          (fun kv => kv.2.map (fun v => (kv.1, [setKey s.foreignKey src v]))))

/-- Database.load_json on an already-decoded document: derive the insert
statements and execute them in order. -/
def loadJson (db : DB) (doc : Document) : Except String DB := do
  let ops ← loadJsonOps db.schema doc
  ops.foldlM (fun d op => insertBatch d op.1 op.2) db

/-- The file filter of the source phase of Database.load_database: skip
files whose name with every ".json" removed is a reference table, files not
ending in ".json", and hidden files. -/
def isSourceFile (s : DBSchema) (fname : String) : Bool :=
  !(s.referenceTables.contains (pyReplace fname ".json" "")) &&
    pyEndsWith fname ".json" && !(pyStartsWith fname ".")

/-- Database.load_database: clear every table, reload the reference tables,
then parse (with the datetime hook) and insert every source JSON file. -/
def loadDatabase (db : DB) (dir : SavedDir) : Except String DB := do
  let cleared := clearAll db
  let withRefs ← loadRefPhase cleared dir.refFiles []
  dir.sourceFiles.foldlM
    (fun d f =>
      if isSourceFile d.schema f.1 then loadJson d (decodeDocHook f.2)
      else pure d)
    withRefs

/-! ### Derived descriptions used by the proofs -/

/-- The tables visited by Database.inventory, in visiting order: the primary
table first, then every reflected table that is neither a reference table
nor the primary table. -/
def inventoryTables (s : DBSchema) : List String :=
  s.primaryTable :: (s.tables.map (fun t => t.name)).filter
    (fun tname => decide (tname ∉ s.referenceTables ++ [s.primaryTable]))

/-- The contribution of one table to an inventory document. -/
def entryOpt (db : DB) (x : Value) (tname : String) : Option (String × List Row) :=
  let results := matchingRows db tname x
  if results = [] then none
  else if tname = db.schema.primaryTable then some (tname, results)
  else some (tname, results.map (rowCleanup db.schema))

/-- All values appearing anywhere in a document survive the codec. -/
def docCodecSafe (d : Document) : Prop :=
  ∀ e ∈ d, ∀ r ∈ e.2, ∀ kv ∈ r, Value.codecSafe kv.2

instance (d : Document) : Decidable (docCodecSafe d) := by
  unfold docCodecSafe; infer_instance

/-- Whether an optional cell value is a string (primary identifiers must be
strings for the filename rule to apply to them verbatim). -/
def isStrOpt : Option Value → Bool
  | some (Value.vstr _) => true
  | _ => false

/-- Extract the string payload of an optional cell value. -/
def strOfOpt : Option Value → Option String
  | some (Value.vstr s) => some s
  | _ => none

/-- The primary-key identifier strings of a list of primary-table rows. -/
def rowIds (s : DBSchema) (rows : List Row) : List String :=
  rows.filterMap (fun r => strOfOpt (alookup s.primaryKey r))

/-- The primary-key identifier strings of the primary table. -/
def idsOf (db : DB) : List String :=
  rowIds db.schema (db.rows db.schema.primaryTable)

/-- The well-formedness and collision-freedom conditions under which the
export/import cycle is proved to preserve inventories: reflected table
names are distinct; the primary table is reflected, is not a reference
table, and carries the primary-key column; columns are distinct per table
and every data table carries the foreign-key column; stored rows carry
exactly their table's columns in schema order; every table is covered by
the dependency-sorted clearing order; primary identifiers are strings,
pairwise distinct, with pairwise distinct exported filenames that are
neither hidden files nor named after a reference table; and every stored
value survives the JSON codec. -/
def exportSafe (db : DB) : Prop :=
  (db.schema.tables.map (fun t => t.name)).Nodup ∧
  db.schema.primaryTable ∈ db.schema.tables.map (fun t => t.name) ∧
  db.schema.primaryTable ∉ db.schema.referenceTables ∧
  (∀ t ∈ db.schema.tables, t.columns.Nodup) ∧
  (∀ t ∈ db.schema.tables, t.name = db.schema.primaryTable →
    db.schema.primaryKey ∈ t.columns) ∧
  (∀ t ∈ db.schema.tables, t.name ≠ db.schema.primaryTable →
    t.name ∉ db.schema.referenceTables → db.schema.foreignKey ∈ t.columns) ∧
  (∀ t ∈ db.schema.tables, ∀ r ∈ db.rows t.name, keysOf r = t.columns) ∧
  (∀ t ∈ db.schema.tables, t.name ∈ db.schema.sortedTables) ∧
  (∀ r ∈ db.rows db.schema.primaryTable, isStrOpt (alookup db.schema.primaryKey r) = true) ∧
  (idsOf db).Nodup ∧
  ((idsOf db).map (fun id => slugFilename id)).Nodup ∧
  (∀ id ∈ idsOf db, pyStartsWith (slugFilename id) "." = false ∧
    pyReplace (slugFilename id) ".json" "" ∉ db.schema.referenceTables) ∧
  (∀ t ∈ db.schema.tables, ∀ r ∈ db.rows t.name, ∀ kv ∈ r, Value.codecSafe kv.2)

instance (db : DB) : Decidable (exportSafe db) := by
  unfold exportSafe
  infer_instance

/-- Referential integrity of one child row: its foreign-key value, when
present and non-NULL, names an existing primary-table row.  (SQL foreign
keys admit NULL without a parent, and a NULL never equality-matches.) -/
def childRefOk (db : DB) (r : Row) : Bool :=
  match alookup db.schema.foreignKey r with
  | some v =>
    (v == Value.vnull) ||
      (db.rows db.schema.primaryTable).any
        (fun pr => alookup db.schema.primaryKey pr == some v)
  | none => true

/-- The table names of the schema, primary table first (the tables whose
rows the proofs need well-formedness hypotheses about). -/
def schemaTableNames (s : DBSchema) : List String :=
  s.primaryTable :: s.tables.map (fun t => t.name)

/-! ### Concrete states used by witnesses and counterexamples -/

/-- A small schema in the shape of the example database of the test suite:
a Sources primary table, a Names child table keyed by the source column on
both sides, and a Publications reference table. -/
def exampleSchema : DBSchema :=
  ⟨[⟨"Publications", ["name"]⟩, ⟨"Sources", ["source", "ra"]⟩,
    ⟨"Names", ["source", "other_name"]⟩],
   ["Publications", "Sources", "Names"], "Sources", "source", "source",
   ["Publications"]⟩

/-- A populated example state: one source with one alternate name; the
Publications reference table is empty. -/
def exampleDB : DB :=
  ⟨exampleSchema, fun t =>
    if t = "Sources" then [[("source", Value.vstr "Gl 229"), ("ra", Value.vnum 1)]]
    else if t = "Names" then
      [[("source", Value.vstr "Gl 229"), ("other_name", Value.vstr "HD 42581")]]
    else []⟩

/-- The inventory document of Gl 229 in the example state. -/
def exampleDoc : Document :=
  [("Sources", [[("source", Value.vstr "Gl 229"), ("ra", Value.vnum 1)]]),
   ("Names", [[("other_name", Value.vstr "HD 42581")]])]

/-- A state with two sources whose identifiers collide after slugging:
"A B" and "a_b" both export to the file a_b.json. -/
def collideDB : DB :=
  ⟨⟨[⟨"Sources", ["source"]⟩], ["Sources"], "Sources", "source", "source", []⟩,
   fun t =>
    if t = "Sources" then [[("source", Value.vstr "A B")], [("source", Value.vstr "a_b")]]
    else []⟩

/-! ## Lemmas: association lists -/

lemma alookup_eq_none_iff {α : Type} (k : String) :
    ∀ l : List (String × α), alookup k l = none ↔ k ∉ keysOf l := by
  intro l
  induction l with
  | nil => simp [alookup, keysOf]
  | cons kv rest ih =>
    simp only [alookup, keysOf, List.map_cons, List.mem_cons]
    by_cases h : kv.1 = k
    · simp [h]
    · rw [if_neg h, ih]
      simp only [keysOf]
      constructor
      · intro hk hor
        rcases hor with h1 | h2
        · exact h h1.symm
        · exact hk h2
      · intro hk h2
        exact hk (Or.inr h2)

lemma alookup_delKey_self {α : Type} (k : String) :
    ∀ l : List (String × α), (keysOf l).Nodup → alookup k (delKey k l) = none := by
  intro l
  induction l with
  | nil => simp [delKey, alookup]
  | cons kv rest ih =>
    intro hnd
    simp only [keysOf, List.map_cons, List.nodup_cons] at hnd
    simp only [delKey]
    by_cases h : kv.1 = k
    · rw [if_pos h, alookup_eq_none_iff]
      rw [← h]; exact hnd.1
    · rw [if_neg h, alookup]
      rw [if_neg h]
      exact ih hnd.2

lemma alookup_delKey_ne {α : Type} (k k2 : String) (hne : k2 ≠ k) :
    ∀ l : List (String × α), alookup k2 (delKey k l) = alookup k2 l := by
  intro l
  induction l with
  | nil => simp [delKey]
  | cons kv rest ih =>
    simp only [delKey, alookup]
    by_cases h : kv.1 = k
    · rw [if_pos h, if_neg (fun hh : kv.1 = k2 => hne (hh.symm.trans h))]
    · rw [if_neg h, alookup]
      by_cases h2 : kv.1 = k2
      · simp [h2]
      · simp [h2, ih]

/-! ## Lemmas: the shape of inventory documents -/

lemma inventoryQuery_eq (db : DB) (x : Value) (acc : Document) (tname : String) :
    inventoryQuery db acc tname x = acc ++ (entryOpt db x tname).toList := by
  unfold inventoryQuery entryOpt
  by_cases hr : matchingRows db tname x = []
  · simp [hr]
  · by_cases ht : tname = db.schema.primaryTable
    · subst ht
      simp [hr]
    · simp [hr, ht]

lemma entryOpt_key (db : DB) (x : Value) (tname : String) (e : String × List Row)
    (h : entryOpt db x tname = some e) : e.1 = tname := by
  unfold entryOpt at h
  by_cases hr : matchingRows db tname x = []
  · simp [hr] at h
  · by_cases ht : tname = db.schema.primaryTable
    · subst ht
      simp [hr] at h
      rw [← h]
    · simp [hr, ht] at h
      rw [← h]

lemma inventory_loop_eq (db : DB) (x : Value) :
    ∀ (l : List String) (acc : Document),
      l.foldl
        (fun acc tname =>
          if tname ∈ db.schema.referenceTables ++ [db.schema.primaryTable] then acc
          else inventoryQuery db acc tname x) acc
      = acc ++ (l.filter
          (fun t => decide (t ∉ db.schema.referenceTables ++ [db.schema.primaryTable]))).filterMap
            (entryOpt db x) := by
  intro l
  induction l with
  | nil => intro acc; simp
  | cons hd tl ih =>
    intro acc
    simp only [List.foldl_cons]
    by_cases hmem : hd ∈ db.schema.referenceTables ++ [db.schema.primaryTable]
    · rw [if_pos hmem, ih, List.filter_cons_of_neg]
      simp [hmem]
    · rw [if_neg hmem, inventoryQuery_eq, ih,
        List.filter_cons_of_pos (by simp [hmem]), List.filterMap_cons]
      cases hopt : entryOpt db x hd <;> simp [hopt]

lemma inventory_eq (db : DB) (x : Value) :
    inventory db x = (inventoryTables db.schema).filterMap (entryOpt db x) := by
  unfold inventory inventoryTables
  rw [inventory_loop_eq, inventoryQuery_eq]
  simp only [List.nil_append, List.filterMap_cons]
  cases hopt : entryOpt db x db.schema.primaryTable <;> simp [hopt]

lemma inventoryTables_nodup (s : DBSchema)
    (h : (s.tables.map (fun t => t.name)).Nodup) : (inventoryTables s).Nodup := by
  unfold inventoryTables
  refine List.Nodup.cons ?_ (h.filter _)
  intro hmem
  rcases List.mem_filter.mp hmem with ⟨_, hdec⟩
  simp at hdec

lemma alookup_filterMap_entry (db : DB) (x : Value) :
    ∀ (l : List String), l.Nodup → ∀ T : String,
      alookup T (l.filterMap (entryOpt db x)) =
        if T ∈ l then (entryOpt db x T).map (fun e => e.2) else none := by
  intro l
  induction l with
  | nil => intro _ T; simp [alookup]
  | cons hd tl ih =>
    intro hnd T
    rcases List.nodup_cons.mp hnd with ⟨hhd, htl⟩
    simp only [List.filterMap_cons]
    cases hopt : entryOpt db x hd with
    | none =>
      rw [ih htl T]
      by_cases hT : T = hd
      · subst hT
        rw [if_neg hhd, if_pos (List.mem_cons_self _ _), hopt]
        simp
      · by_cases hmem : T ∈ tl
        · rw [if_pos hmem, if_pos (List.mem_cons.mpr (Or.inr hmem))]
        · rw [if_neg hmem,
            if_neg (fun h => (List.mem_cons.mp h).elim hT (fun h2 => hmem h2))]
    | some e =>
      have hkey : e.1 = hd := entryOpt_key db x hd e hopt
      simp only [alookup, hkey]
      by_cases hT : hd = T
      · subst hT
        rw [if_pos rfl, if_pos (List.mem_cons_self _ _), hopt]
        simp
      · rw [if_neg hT, ih htl T]
        by_cases hmem : T ∈ tl
        · rw [if_pos hmem, if_pos (List.mem_cons.mpr (Or.inr hmem))]
        · rw [if_neg hmem,
            if_neg (fun h =>
              (List.mem_cons.mp h).elim (fun h2 => hT h2.symm) (fun h2 => hmem h2))]

/-! ## Claim C3: sparse keys -/

/-- C3: for every identifier x and every reflected table T that is neither
the primary table nor a reference table, the inventory document contains the
key T if and only if at least one row of T matches x on the foreign-key
column, and the entry under T is never an empty list. -/
theorem claim3_sparse_keys (db : DB) (x : Value) (T : String)
    (hnodup : (db.schema.tables.map (fun t => t.name)).Nodup)
    (hT : T ∈ db.schema.tables.map (fun t => t.name))
    (hTref : T ∉ db.schema.referenceTables)
    (hTprim : T ≠ db.schema.primaryTable) :
    ((alookup T (inventory db x)).isSome ↔ matchingRows db T x ≠ []) ∧
      alookup T (inventory db x) ≠ some [] := by
  have hmemInv : T ∈ inventoryTables db.schema := by
    unfold inventoryTables
    refine List.mem_cons.mpr (Or.inr (List.mem_filter.mpr ⟨hT, ?_⟩))
    simp [hTref, hTprim]
  rw [inventory_eq,
    alookup_filterMap_entry db x _ (inventoryTables_nodup _ hnodup) T,
    if_pos hmemInv]
  unfold entryOpt
  by_cases hr : matchingRows db T x = []
  · simp [hr]
  · simp [hr, hTprim]

/-- Witness for C3 on the example state: the Names table has a matching row
for Gl 229, so the key is present and nonempty. -/
theorem claim3_sparse_keys_witness :
    ((alookup "Names" (inventory exampleDB (Value.vstr "Gl 229"))).isSome ↔
        matchingRows exampleDB "Names" (Value.vstr "Gl 229") ≠ []) ∧
      alookup "Names" (inventory exampleDB (Value.vstr "Gl 229")) ≠ some [] :=
  claim3_sparse_keys exampleDB (Value.vstr "Gl 229") "Names"
    (by decide) (by decide) (by decide) (by decide)

/-! ## Claim C4: foreign-key stripping -/

/-- C4: every row stored under a non-primary-table key of an inventory
document lacks the foreign-key column, while the primary-table entry is the
matched rows verbatim, each retaining its identity column (whose value is
the queried identifier). -/
theorem claim4_foreign_key_stripping (db : DB) (x : Value)
    (hkeys : ∀ t ∈ schemaTableNames db.schema, ∀ r ∈ db.rows t, (keysOf r).Nodup) :
    ∀ e ∈ inventory db x,
      (e.1 ≠ db.schema.primaryTable →
        ∀ r ∈ e.2, alookup db.schema.foreignKey r = none) ∧
        (e.1 = db.schema.primaryTable →
          e.2 = matchingRows db db.schema.primaryTable x ∧
            ∀ r ∈ e.2, alookup db.schema.primaryKey r = some x) := by
  intro e he
  rw [inventory_eq] at he
  rcases List.mem_filterMap.mp he with ⟨t, htmem, hopt⟩
  have hkey : e.1 = t := entryOpt_key db x t e hopt
  unfold entryOpt at hopt
  by_cases hr : matchingRows db t x = []
  · simp [hr] at hopt
  · by_cases ht : t = db.schema.primaryTable
    · subst ht
      simp [hr] at hopt
      constructor
      · intro hne
        exact absurd (hkey.trans rfl) hne
      · intro _
        constructor
        · rw [← hopt]
        · intro r hrmem
          rw [← hopt] at hrmem
          have hmem2 := (List.mem_filter.mp hrmem).2
          simpa [colOf] using hmem2
    · simp [hr, ht] at hopt
      constructor
      · intro _ r hrmem
        rw [← hopt] at hrmem
        rcases List.mem_map.mp hrmem with ⟨r0, hr0, hclean⟩
        have hr0rows : r0 ∈ db.rows t := List.mem_of_mem_filter hr0
        have hnd : (keysOf r0).Nodup := by
          refine hkeys t ?_ r0 hr0rows
          unfold schemaTableNames
          rcases List.mem_cons.mp htmem with h1 | h2
          · exact absurd h1 ht
          · exact List.mem_cons.mpr (Or.inr (List.mem_filter.mp h2).1)
        rw [← hclean]
        exact alookup_delKey_self _ _ hnd
      · intro h2
        exact absurd (hkey ▸ h2) ht

/-- Witness for C4 on the example state: the cleaned Names row of the
Gl 229 inventory indeed lacks the source column. -/
theorem claim4_foreign_key_stripping_witness :
    alookup "source" [("other_name", Value.vstr "HD 42581")] = none :=
  (claim4_foreign_key_stripping exampleDB (Value.vstr "Gl 229") (by decide)
      ("Names", [[("other_name", Value.vstr "HD 42581")]]) (by decide)).1
    (by decide) [("other_name", Value.vstr "HD 42581")] (by decide)

/-! ## Claim C5: nonexistent identifier -/

/-- C5 as written is false: _inventory_query records the primary table's key
only when the result list is nonempty, so an identifier matching no primary
row yields an empty document with no primary-table key at all — not a
document whose primary entry is an empty sequence. -/
theorem claim5_counterexample :
    inventory exampleDB (Value.vstr "V1234 Ori") = [] ∧
      alookup "Sources" (inventory exampleDB (Value.vstr "V1234 Ori")) = none := by
  constructor
  · decide
  · decide

/-- C5 amended: an identifier that matches no primary-table row (and is not
NULL, with referential integrity holding for the child tables) yields the
empty document: no primary-table entry — not even an empty one — and no
other table entries. -/
theorem claim5_amended (db : DB) (x : Value)
    (hx : matchingRows db db.schema.primaryTable x = [])
    (hxnull : x ≠ Value.vnull)
    (hint : ∀ t ∈ db.schema.tables.map (fun t => t.name),
      t ≠ db.schema.primaryTable → ∀ r ∈ db.rows t, childRefOk db r = true) :
    inventory db x = [] := by
  rw [inventory_eq, List.filterMap_eq_nil_iff]
  intro t htmem
  have hmr : matchingRows db t x = [] := by
    by_cases ht : t = db.schema.primaryTable
    · subst ht
      exact hx
    · have htnames : t ∈ db.schema.tables.map (fun t => t.name) := by
        rcases List.mem_cons.mp htmem with h1 | h2
        · exact absurd h1 ht
        · exact (List.mem_filter.mp h2).1
      unfold matchingRows
      rw [List.filter_eq_nil_iff]
      intro r hrmem hdec
      have hlk : alookup db.schema.foreignKey r = some x := by
        simpa [colOf, ht] using hdec
      have hok := hint t htnames ht r hrmem
      unfold childRefOk at hok
      rw [hlk] at hok
      have hok2 : ((x == Value.vnull) ||
          (db.rows db.schema.primaryTable).any
            (fun pr => alookup db.schema.primaryKey pr == some x)) = true := hok
      have hxnull2 : (x == Value.vnull) = false := by
        simp [hxnull]
      rw [hxnull2, Bool.false_or, List.any_eq_true] at hok2
      rcases hok2 with ⟨pr, hprmem, hpr⟩
      have hpr2 : alookup db.schema.primaryKey pr = some x := by simpa using hpr
      have : pr ∈ matchingRows db db.schema.primaryTable x := by
        unfold matchingRows
        exact List.mem_filter.mpr ⟨hprmem, by simpa [colOf] using hpr2⟩
      rw [hx] at this
      exact absurd this (List.not_mem_nil pr)
  unfold entryOpt
  simp [hmr]

/-- Witness for the amended C5 on the example state. -/
theorem claim5_amended_witness :
    inventory exampleDB (Value.vstr "V773 Tau") = [] :=
  claim5_amended exampleDB (Value.vstr "V773 Tau") (by decide) (by decide) (by decide)

/-! ## Lemmas: the JSON codec round trip -/

lemma digitChar_isDigit : ∀ k : Nat, k < 10 → (Nat.digitChar k).isDigit = true := by
  decide

lemma digitVal_digitChar : ∀ k : Nat, k < 10 → digitVal (Nat.digitChar k) = k := by
  decide

lemma pad2_val (n : Nat) (h : n < 100) :
    10 * digitVal (Nat.digitChar (n / 10 % 10)) + digitVal (Nat.digitChar (n % 10)) = n := by
  rw [digitVal_digitChar _ (Nat.mod_lt _ (by norm_num)),
    digitVal_digitChar _ (Nat.mod_lt _ (by norm_num))]
  omega

lemma pad4_val (n : Nat) (h : n < 10000) :
    1000 * digitVal (Nat.digitChar (n / 1000 % 10)) +
      100 * digitVal (Nat.digitChar (n / 100 % 10)) +
      10 * digitVal (Nat.digitChar (n / 10 % 10)) + digitVal (Nat.digitChar (n % 10)) = n := by
  rw [digitVal_digitChar _ (Nat.mod_lt _ (by norm_num)),
    digitVal_digitChar _ (Nat.mod_lt _ (by norm_num)),
    digitVal_digitChar _ (Nat.mod_lt _ (by norm_num)),
    digitVal_digitChar _ (Nat.mod_lt _ (by norm_num))]
  omega

lemma parseDate_renderDate (y m d : Nat) (h : validDate y m d) :
    parseDate (renderDate y m d) = some (y, m, d) := by
  obtain ⟨h1, h2, h3, h4, h5, h6⟩ := h
  show (if (Nat.digitChar (y / 1000 % 10)).isDigit &&
      (Nat.digitChar (y / 100 % 10)).isDigit && (Nat.digitChar (y / 10 % 10)).isDigit &&
      (Nat.digitChar (y % 10)).isDigit && (Nat.digitChar (m / 10 % 10)).isDigit &&
      (Nat.digitChar (m % 10)).isDigit && (Nat.digitChar (d / 10 % 10)).isDigit &&
      (Nat.digitChar (d % 10)).isDigit then _ else none) = some (y, m, d)
  rw [digitChar_isDigit _ (Nat.mod_lt _ (by norm_num)),
    digitChar_isDigit _ (Nat.mod_lt _ (by norm_num)),
    digitChar_isDigit _ (Nat.mod_lt _ (by norm_num)),
    digitChar_isDigit _ (Nat.mod_lt _ (by norm_num)),
    digitChar_isDigit _ (Nat.mod_lt _ (by norm_num)),
    digitChar_isDigit _ (Nat.mod_lt _ (by norm_num)),
    digitChar_isDigit _ (Nat.mod_lt _ (by norm_num)),
    digitChar_isDigit _ (Nat.mod_lt _ (by norm_num))]
  simp only [Bool.and_self, if_true]
  rw [pad4_val y (by omega), pad2_val m (by omega), pad2_val d (by omega)]
  rw [if_pos ⟨h1, h2, h3, h4, h5, h6⟩]

lemma parseDateTime_renderDateTime (y mo d h mi s : Nat)
    (hd : validDate y mo d) (ht : validTime h mi s) :
    parseDateTime (renderDateTime y mo d h mi s) = some (y, mo, d, h, mi, s) := by
  obtain ⟨h1, h2, h3, h4, h5, h6⟩ := hd
  obtain ⟨h7, h8, h9⟩ := ht
  show (if (Nat.digitChar (y / 1000 % 10)).isDigit &&
      (Nat.digitChar (y / 100 % 10)).isDigit && (Nat.digitChar (y / 10 % 10)).isDigit &&
      (Nat.digitChar (y % 10)).isDigit && (Nat.digitChar (mo / 10 % 10)).isDigit &&
      (Nat.digitChar (mo % 10)).isDigit && (Nat.digitChar (d / 10 % 10)).isDigit &&
      (Nat.digitChar (d % 10)).isDigit && (Nat.digitChar (h / 10 % 10)).isDigit &&
      (Nat.digitChar (h % 10)).isDigit && (Nat.digitChar (mi / 10 % 10)).isDigit &&
      (Nat.digitChar (mi % 10)).isDigit && (Nat.digitChar (s / 10 % 10)).isDigit &&
      (Nat.digitChar (s % 10)).isDigit then _ else none) = some (y, mo, d, h, mi, s)
  rw [digitChar_isDigit _ (Nat.mod_lt _ (by norm_num)),
    digitChar_isDigit _ (Nat.mod_lt _ (by norm_num)),
    digitChar_isDigit _ (Nat.mod_lt _ (by norm_num)),
    digitChar_isDigit _ (Nat.mod_lt _ (by norm_num)),
    digitChar_isDigit _ (Nat.mod_lt _ (by norm_num)),
    digitChar_isDigit _ (Nat.mod_lt _ (by norm_num)),
    digitChar_isDigit _ (Nat.mod_lt _ (by norm_num)),
    digitChar_isDigit _ (Nat.mod_lt _ (by norm_num)),
    digitChar_isDigit _ (Nat.mod_lt _ (by norm_num)),
    digitChar_isDigit _ (Nat.mod_lt _ (by norm_num)),
    digitChar_isDigit _ (Nat.mod_lt _ (by norm_num)),
    digitChar_isDigit _ (Nat.mod_lt _ (by norm_num)),
    digitChar_isDigit _ (Nat.mod_lt _ (by norm_num)),
    digitChar_isDigit _ (Nat.mod_lt _ (by norm_num))]
  simp only [Bool.and_self, if_true]
  rw [pad4_val y (by omega), pad2_val mo (by omega), pad2_val d (by omega),
    pad2_val h (by omega), pad2_val mi (by omega), pad2_val s (by omega)]
  rw [if_pos ⟨⟨h1, h2, h3, h4, h5, h6⟩, h7, h8, h9⟩]

lemma parseDateTime_renderDate (y m d : Nat) :
    parseDateTime (renderDate y m d) = none := rfl

lemma parseDate_renderDateTime (y mo d h mi s : Nat) :
    parseDate (renderDateTime y mo d h mi s) = none := rfl

lemma decode_encode_value (v : Value) (h : v.codecSafe) :
    decodeValueHook (encodeValue v) = v := by
  cases v with
  | vnull => rfl
  | vint n => rfl
  | vnum q => rfl
  | vbool b => rfl
  | vstr s =>
    obtain ⟨h1, h2⟩ := h
    simp [encodeValue, decodeValueHook, h1, h2]
  | vdate y m d =>
    simp [encodeValue, decodeValueHook, parseDateTime_renderDate,
      parseDate_renderDate y m d h]
  | vdatetime y mo dd hh mi s =>
    simp [encodeValue, decodeValueHook,
      parseDateTime_renderDateTime y mo dd hh mi s h.1 h.2]

lemma decode_encode_row (r : Row) (h : ∀ kv ∈ r, Value.codecSafe kv.2) :
    decodeRowHook (encodeRow r) = r := by
  induction r with
  | nil => rfl
  | cons kv rest ih =>
    have hrest := ih (fun kv2 hm => h kv2 (List.mem_cons.mpr (Or.inr hm)))
    simp only [encodeRow, decodeRowHook, List.map_cons] at hrest ⊢
    rw [decode_encode_value kv.2 (h kv (List.mem_cons_self _ _)), hrest]

lemma decode_encode_table (rows : List Row)
    (h : ∀ r ∈ rows, ∀ kv ∈ r, Value.codecSafe kv.2) :
    (rows.map encodeRow).map decodeRowHook = rows := by
  induction rows with
  | nil => rfl
  | cons r rest ih =>
    simp only [List.map_cons]
    rw [decode_encode_row r (h r (List.mem_cons_self _ _)),
      ih (fun r2 hm => h r2 (List.mem_cons.mpr (Or.inr hm)))]

lemma decode_encode_doc (d : Document) (h : docCodecSafe d) :
    decodeDocHook (encodeDoc d) = d := by
  induction d with
  | nil => rfl
  | cons e rest ih =>
    simp only [encodeDoc, decodeDocHook, List.map_cons]
    rw [decode_encode_table e.2 (h e (List.mem_cons_self _ _))]
    have := ih (fun e2 he2 => h e2 (List.mem_cons.mpr (Or.inr he2)))
    simp only [encodeDoc, decodeDocHook] at this
    simp_all

/-! ## Claim C2: codec round trip -/

/-- C2 as written is false: the decoding hook converts every string that
exactly matches the date grammar, so a document holding the plain string
value 2020-01-01 decodes to a document holding a date value instead. -/
theorem claim2_counterexample :
    decodeDocHook (encodeDoc [("Sources", [[("comments", Value.vstr "2020-01-01")]])]) ≠
      [("Sources", [[("comments", Value.vstr "2020-01-01")]])] := by
  decide

/-- C2 amended: decoding the encoding of a document is the identity for
every document whose values are drawn from
{string, integer, float, boolean, null, date, datetime}, provided no
string value exactly matches the recognized date or datetime grammar
(numbers are modelled as exact, matching the spec's requirement that
representable doubles round-trip exactly). -/
theorem claim2_roundtrip_amended (d : Document) (h : docCodecSafe d) :
    decodeDocHook (encodeDoc d) = d :=
  decode_encode_doc d h

/-- Witness for the amended C2: a document exercising every value kind. -/
theorem claim2_roundtrip_amended_witness :
    decodeDocHook (encodeDoc
      [("Sources",
        [[("source", Value.vstr "Gl 229"), ("ra", Value.vnum (1/2)),
          ("n", Value.vint (-3)), ("flag", Value.vbool true),
          ("comments", Value.vnull), ("obsdate", Value.vdate 2020 2 29),
          ("modified", Value.vdatetime 2021 12 31 23 59 59)]])]) =
      [("Sources",
        [[("source", Value.vstr "Gl 229"), ("ra", Value.vnum (1/2)),
          ("n", Value.vint (-3)), ("flag", Value.vbool true),
          ("comments", Value.vnull), ("obsdate", Value.vdate 2020 2 29),
          ("modified", Value.vdatetime 2021 12 31 23 59 59)]])] :=
  claim2_roundtrip_amended _ (by decide)

/-! ## Claim C6: insertion order and foreign-key re-attachment in load_json -/

lemma alookup_setKey_self {α : Type} (k : String) (v : α) :
    ∀ l : List (String × α), alookup k (setKey k v l) = some v := by
  intro l
  induction l with
  | nil => simp [setKey, alookup]
  | cons kv rest ih =>
    simp only [setKey]
    by_cases h : kv.1 = k
    · rw [if_pos h]
      simp [alookup]
    · rw [if_neg h]
      simp [alookup, h, ih]

/-- C6: whenever load_json succeeds in deriving its insert statements, the
first statement is the bulk insert of the document's primary-table entry
(before any row of any other table), and every later statement targets a
non-primary table and carries rows whose foreign-key column is set to the
primary identity value extracted from the first row of the primary entry. -/
theorem claim6_insertion_order (s : DBSchema) (doc : Document)
    (ops : List (String × List Row))
    (h : loadJsonOps s doc = .ok ops) :
    ops.head? = some (s.primaryTable, (alookup s.primaryTable doc).getD []) ∧
      ∀ op ∈ ops.tail, op.1 ≠ s.primaryTable ∧
        ∀ r ∈ op.2, alookup s.foreignKey r =
          ((alookup s.primaryTable doc).getD []).head?.bind (alookup s.primaryKey) := by
  unfold loadJsonOps at h
  split at h
  · exact Except.noConfusion h
  · exact Except.noConfusion h
  · rename_i r0 rs hlk
    split at h
    · exact Except.noConfusion h
    · rename_i src hpk
      have hops := Except.ok.inj h
      rw [hlk]
      constructor
      · rw [← hops]
        simp
      · intro op hop
        rw [← hops] at hop
        simp only [List.tail_cons] at hop
        rcases List.mem_flatMap.mp hop with ⟨kv, hkv, hmem⟩
        have hne : kv.1 ≠ s.primaryTable := by
          have := List.mem_filter.mp hkv |>.2
          simpa using this
        rcases List.mem_map.mp hmem with ⟨v, _, hv⟩
        constructor
        · rw [← hv]
          exact hne
        · intro r hr
          rw [← hv] at hr
          simp only [List.mem_singleton] at hr
          subst hr
          rw [alookup_setKey_self]
          simp [hpk]

/-- Witness for C6: the foreign-key value re-attached to the Names row of
the example document is the identity value of its primary entry. -/
theorem claim6_insertion_order_witness :
    alookup "source"
        [("other_name", Value.vstr "HD 42581"), ("source", Value.vstr "Gl 229")] =
      ((alookup "Sources" exampleDoc).getD []).head?.bind (alookup "source") :=
  ((claim6_insertion_order exampleSchema exampleDoc _ rfl).2
      ("Names", [[("other_name", Value.vstr "HD 42581"), ("source", Value.vstr "Gl 229")]])
      (by decide)).2
    [("other_name", Value.vstr "HD 42581"), ("source", Value.vstr "Gl 229")] (by decide)

/-! ## Claim C10: documents without a usable primary entry -/

/-- C10: a document whose primary-table entry is absent (KeyError) or empty
(IndexError) makes load_json fail while deriving the identity value, before
any insert statement is produced and before any transaction is opened; the
error result carries no new state, so no row of any table is inserted. -/
theorem claim10_missing_primary (db : DB) (doc : Document)
    (h : alookup db.schema.primaryTable doc = none ∨
      alookup db.schema.primaryTable doc = some []) :
    loadJsonOps db.schema doc =
        .error (if (alookup db.schema.primaryTable doc).isNone then
          "KeyError: no primary table entry" else "IndexError: empty primary table entry") ∧
      loadJson db doc =
        .error (if (alookup db.schema.primaryTable doc).isNone then
          "KeyError: no primary table entry" else "IndexError: empty primary table entry") := by
  have hops : loadJsonOps db.schema doc =
      .error (if (alookup db.schema.primaryTable doc).isNone then
        "KeyError: no primary table entry" else "IndexError: empty primary table entry") := by
    unfold loadJsonOps
    rcases h with h | h <;> rw [h] <;> simp
  refine ⟨hops, ?_⟩
  unfold loadJson
  rw [hops]
  rfl

/-- Witness for C10: a document holding only a Names entry fails with the
KeyError before producing any insert statement. -/
theorem claim10_missing_primary_witness :
    loadJsonOps exampleSchema [("Names", [[("other_name", Value.vstr "HD 42581")]])] =
        .error "KeyError: no primary table entry" ∧
      loadJson exampleDB [("Names", [[("other_name", Value.vstr "HD 42581")]])] =
        .error "KeyError: no primary table entry" :=
  claim10_missing_primary exampleDB [("Names", [[("other_name", Value.vstr "HD 42581")]])]
    (Or.inl (by decide))

/-! ## Claim C7: dependency-safe clearing -/

lemma clearCheck_safe (edges : List (String × String)) :
    ∀ (order : List String) (st : String → List Row),
      (∀ e ∈ edges, ∀ i, ∀ hi : i < order.length,
        order.get ⟨i, hi⟩ = e.2 → e.1 ∈ order.take i ∨ st e.1 = []) →
      clearCheck edges order st = false := by
  intro order
  induction order with
  | nil => intro st _; rfl
  | cons p rest ih =>
    intro st hinv
    unfold clearCheck
    rw [Bool.or_eq_false_iff]
    constructor
    · rw [List.any_eq_false]
      intro e he
      by_cases hp : e.2 = p
      · have h0 := hinv e he 0 (by simp) (by simpa using hp.symm)
        rcases h0 with h1 | h1
        · simp at h1
        · simp [h1]
      · simp [hp]
    · refine ih _ ?_
      intro e he i hi hget
      have hstep := hinv e he (i + 1) (by simpa using Nat.succ_lt_succ hi)
        (by simpa using hget)
      rcases hstep with h1 | h1
      · rw [List.take_succ_cons] at h1
        rcases List.mem_cons.mp h1 with h2 | h2
        · right
          simp [h2]
        · left
          exact h2
      · right
        by_cases hep : e.1 = p
        · simp [hep]
        · simp [hep, h1]

/-- C7: for any foreign-key dependency graph whose edges (child, parent) are
laid out so that in the clearing order reversed(metadata.sorted_tables)
every child table appears strictly before its parent — which is exactly what
reversing SQLAlchemy's topological sort guarantees for an acyclic graph —
the clearing phase of load_database never deletes from a table while a
dependent table still holds rows, so no deletion raises a foreign-key
violation, from any starting contents. -/
theorem claim7_dependency_safe_clearing (s : DBSchema)
    (edges : List (String × String)) (st : String → List Row)
    (htopo : ∀ e ∈ edges, ∀ i, ∀ hi : i < s.sortedTables.reverse.length,
      s.sortedTables.reverse.get ⟨i, hi⟩ = e.2 → e.1 ∈ s.sortedTables.reverse.take i) :
    clearCheck edges s.sortedTables.reverse st = false :=
  clearCheck_safe edges _ st (fun e he i hi hget => Or.inl (htopo e he i hi hget))

/-- Witness for C7: the example schema with the Names-references-Sources
edge and both tables populated clears without any violation. -/
theorem claim7_dependency_safe_clearing_witness :
    clearCheck [("Names", "Sources")] exampleSchema.sortedTables.reverse
      exampleDB.rows = false :=
  claim7_dependency_safe_clearing exampleSchema [("Names", "Sources")]
    exampleDB.rows (by decide)

/-! ## Claim C9: empty reference tables -/

lemma alookup_refFiles_none (db : DB) (name : String) :
    ∀ (refs : List String) (acc : List (String × List JRow)),
      alookup name acc = none →
      (∀ t ∈ refs, saveReferenceTableFile db t = none ∨ t ++ ".json" ≠ name) →
      alookup name
        (refs.foldl
          (fun fs tname =>
            if (findTable db.schema tname).isSome then
              match saveReferenceTableFile db tname with
              | some f => fs ++ [f]
              | none => fs
            else fs)
          acc) = none := by
  intro refs
  induction refs with
  | nil => intro acc hacc _; simpa using hacc
  | cons t rest ih =>
    intro acc hacc hne
    simp only [List.foldl_cons]
    have hstep : alookup name
        (if (findTable db.schema t).isSome then
          match saveReferenceTableFile db t with
          | some f => acc ++ [f]
          | none => acc
        else acc) = none := by
      by_cases hf : (findTable db.schema t).isSome
      · rw [if_pos hf]
        cases hsv : saveReferenceTableFile db t with
        | none => exact hacc
        | some f =>
          have hfname : f.1 = t ++ ".json" := by
            unfold saveReferenceTableFile at hsv
            by_cases hlen : (db.rows t).length > 0
            · rw [if_pos hlen] at hsv
              cases hsv
              rfl
            · rw [if_neg hlen] at hsv
              cases hsv
          have hne2 : t ++ ".json" ≠ name := by
            rcases hne t (List.mem_cons_self _ _) with h1 | h1
            · rw [h1] at hsv
              cases hsv
            · exact h1
          rw [alookup_eq_none_iff] at hacc ⊢
          unfold keysOf at hacc ⊢
          rw [List.map_append, List.mem_append]
          rintro (hmem | hmem)
          · exact hacc hmem
          · simp only [List.map_cons, List.map_nil, List.mem_singleton] at hmem
            exact hne2 (hfname ▸ hmem.symm)
      · rw [if_neg hf]
        exact hacc
    exact ih _ hstep (fun t2 h2 => hne t2 (List.mem_cons.mpr (Or.inr h2)))

/-- C9: a configured reference table with zero rows produces no file at all
in the reference/ directory written by save_database (not even an empty
array), and the reference-loading step of a subsequent load_database finds
no file for it — in the reference/ directory or in the top-level fallback —
and skips it silently without an error, leaving any state unchanged. -/
theorem claim9_empty_reference_table (db db2 : DB) (t : String)
    (hrows : db.rows t = [])
    (hinj : ∀ t2 ∈ db.schema.referenceTables, t2 ≠ t → t2 ++ ".json" ≠ t ++ ".json") :
    saveReferenceTableFile db t = none ∧
      alookup (t ++ ".json") (saveRefFiles db) = none ∧
      loadTable db2 (saveRefFiles db) t = .ok db2 ∧
      loadTable db2 ([] : List (String × List JRow)) t = .ok db2 := by
  have hfile : saveReferenceTableFile db t = none := by
    unfold saveReferenceTableFile
    rw [hrows]
    simp
  have hlk : alookup (t ++ ".json") (saveRefFiles db) = none := by
    unfold saveRefFiles
    refine alookup_refFiles_none db (t ++ ".json") db.schema.referenceTables []
      (by simp [alookup]) ?_
    intro t2 ht2
    by_cases heq : t2 = t
    · subst heq
      exact Or.inl hfile
    · exact Or.inr (hinj t2 ht2 heq)
  refine ⟨hfile, hlk, ?_, ?_⟩
  · unfold loadTable
    rw [hlk]
  · unfold loadTable
    simp [alookup]

/-- Witness for C9: the empty Publications reference table of the example
state writes no file and is skipped without error on reload. -/
theorem claim9_empty_reference_table_witness :
    saveReferenceTableFile exampleDB "Publications" = none ∧
      alookup "Publications.json" (saveRefFiles exampleDB) = none ∧
      loadTable exampleDB (saveRefFiles exampleDB) "Publications" = .ok exampleDB ∧
      loadTable exampleDB ([] : List (String × List JRow)) "Publications" =
        .ok exampleDB :=
  claim9_empty_reference_table exampleDB exampleDB "Publications" (by decide)
    (by decide)

/-! ## Claim C8: the filename slug rule -/

/-- C8: the exported filename is obtained by lowercasing the identifier,
replacing spaces with underscores, removing asterisks, stripping
surrounding whitespace and appending the .json extension; in particular
the identifier of the concrete scenario slugs as specified. -/
theorem claim8_filename_slug :
    (∀ s : String, slugFilename s =
        pyStrip (pyReplace (pyReplace (lowerStr s) " " "_") "*" "") ++ ".json") ∧
      slugFilename "2MASS J13571237+1428398" = "2mass_j13571237+1428398.json" :=
  ⟨fun _ => rfl, by decide⟩

/-! ## Lemmas: rows through delete / re-attach / normalized insert -/

lemma alookup_mem {α : Type} (k : String) (v : α) :
    ∀ l : List (String × α), alookup k l = some v → (k, v) ∈ l := by
  intro l
  induction l with
  | nil => intro h; exact absurd h (by simp [alookup])
  | cons kv rest ih =>
    intro h
    unfold alookup at h
    by_cases hk : kv.1 = k
    · rw [if_pos hk] at h
      obtain ⟨a, b⟩ := kv
      cases hk
      cases Option.some.inj h
      exact List.mem_cons_self _ _
    · rw [if_neg hk] at h
      exact List.mem_cons.mpr (Or.inr (ih h))

lemma keysOf_delKey_subset {α : Type} (k : String) :
    ∀ l : List (String × α), ∀ kv ∈ delKey k l, kv ∈ l := by
  intro l
  induction l with
  | nil => intro kv h; exact absurd h (List.not_mem_nil kv)
  | cons hd rest ih =>
    intro kv h
    unfold delKey at h
    by_cases hk : hd.1 = k
    · rw [if_pos hk] at h
      exact List.mem_cons.mpr (Or.inr h)
    · rw [if_neg hk] at h
      rcases List.mem_cons.mp h with h1 | h1
      · exact List.mem_cons.mpr (Or.inl h1)
      · exact List.mem_cons.mpr (Or.inr (ih kv h1))

lemma map_alookup_self (r : Row) (hnd : (keysOf r).Nodup) :
    (keysOf r).map (fun c => (c, (alookup c r).getD Value.vnull)) = r := by
  induction r with
  | nil => rfl
  | cons kv rest ih =>
    obtain ⟨a, b⟩ := kv
    unfold keysOf at hnd ⊢
    simp only [List.map_cons, List.nodup_cons] at hnd ⊢
    rw [List.cons.injEq]
    constructor
    · simp [alookup]
    · have htail : (rest.map (fun kv => kv.1)).map
          (fun c => (c, (alookup c ((a, b) :: rest)).getD Value.vnull)) =
          (rest.map (fun kv => kv.1)).map
            (fun c => (c, (alookup c rest).getD Value.vnull)) := by
        refine List.map_congr_left ?_
        intro c hc
        have hca : ¬(a = c) := fun he => hnd.1 (he ▸ hc)
        simp [alookup, hca]
      rw [htail]
      exact ih hnd.2

lemma insertVals_self (cols : List String) (r : Row)
    (hk : keysOf r = cols) (hnd : cols.Nodup) :
    insertVals cols r = some r := by
  have hguard : (r.all (fun kv => decide (kv.1 ∈ cols))) = true := by
    rw [List.all_eq_true]
    intro kv hkv
    simp only [decide_eq_true_eq]
    rw [← hk]
    exact List.mem_map.mpr ⟨kv, hkv, rfl⟩
  unfold insertVals
  rw [if_pos hguard]
  rw [← hk, map_alookup_self r (hk ▸ hnd)]

lemma alookup_setKey_ne {α : Type} (k c : String) (v : α) (hne : c ≠ k) :
    ∀ l : List (String × α), alookup c (setKey k v l) = alookup c l := by
  intro l
  induction l with
  | nil =>
    show (if k = c then some v else alookup c ([] : List (String × α))) =
      alookup c ([] : List (String × α))
    rw [if_neg (fun h : k = c => hne h.symm)]
  | cons hd rest ih =>
    unfold setKey
    by_cases hk : hd.1 = k
    · rw [if_pos hk]
      unfold alookup
      rw [if_neg (fun h : k = c => hne h.symm), if_neg (hk ▸ fun h : k = c => hne h.symm)]
    · rw [if_neg hk]
      unfold alookup
      by_cases hc2 : hd.1 = c
      · rw [if_pos hc2, if_pos hc2]
      · rw [if_neg hc2, if_neg hc2, ih]

lemma setKey_append {α : Type} (k : String) (v : α) :
    ∀ l : List (String × α), k ∉ keysOf l → setKey k v l = l ++ [(k, v)] := by
  intro l
  induction l with
  | nil => intro _; rfl
  | cons hd rest ih =>
    intro hmem
    unfold keysOf at hmem
    simp only [List.map_cons, List.mem_cons] at hmem
    push_neg at hmem
    unfold setKey
    rw [if_neg (fun he => hmem.1 he.symm), ih hmem.2]
    rfl

lemma alookup_reattach (fk : String) (xv : Value) (r : Row)
    (hfk : alookup fk r = some xv) :
    ∀ c, alookup c (setKey fk xv (delKey fk r)) = alookup c r := by
  intro c
  by_cases hc : c = fk
  · subst hc
    rw [alookup_setKey_self, hfk]
  · rw [alookup_setKey_ne fk c xv hc, alookup_delKey_ne fk c hc r]

lemma insertVals_reattach (cols : List String) (fk : String) (xv : Value) (r : Row)
    (hk : keysOf r = cols) (hnd : cols.Nodup) (hfk : alookup fk r = some xv) :
    insertVals cols (setKey fk xv (delKey fk r)) = some r := by
  have hndr : (keysOf r).Nodup := hk ▸ hnd
  have hfkcols : fk ∈ cols := by
    rw [← hk]
    exact List.mem_map.mpr ⟨(fk, xv), alookup_mem fk xv r hfk, rfl⟩
  have hout : fk ∉ keysOf (delKey fk r) := by
    rw [← alookup_eq_none_iff]
    exact alookup_delKey_self fk r hndr
  have hlk := alookup_reattach fk xv r hfk
  have hguard : ((setKey fk xv (delKey fk r)).all (fun kv => decide (kv.1 ∈ cols))) = true := by
    rw [List.all_eq_true]
    intro kv hkv
    simp only [decide_eq_true_eq]
    rw [setKey_append fk xv _ hout] at hkv
    rcases List.mem_append.mp hkv with h1 | h1
    · have h2 := keysOf_delKey_subset fk r kv h1
      rw [← hk]
      exact List.mem_map.mpr ⟨kv, h2, rfl⟩
    · simp only [List.mem_singleton] at h1
      rw [h1]
      exact hfkcols
  unfold insertVals
  rw [if_pos hguard]
  congr 1
  rw [List.map_congr_left (fun c _ => by rw [hlk c]), ← hk]
  exact map_alookup_self r hndr

/-! ## Lemmas: the phases of save_database / load_database -/

lemma clearAll_spec (db : DB) :
    (clearAll db).schema = db.schema ∧
      ∀ tname, (clearAll db).rows tname =
        if tname ∈ db.schema.sortedTables then [] else db.rows tname := by
  have general : ∀ (l : List String) (d : DB),
      (l.foldl (fun d tname => d.setRows tname []) d).schema = d.schema ∧
      ∀ tname, (l.foldl (fun d tname => d.setRows tname []) d).rows tname =
        if tname ∈ l then [] else d.rows tname := by
    intro l
    induction l with
    | nil => intro d; exact ⟨rfl, fun tname => by simp⟩
    | cons hd rest ih =>
      intro d
      simp only [List.foldl_cons]
      refine ⟨(ih _).1, ?_⟩
      intro tname
      rw [(ih _).2 tname]
      by_cases h1 : tname ∈ rest
      · simp [h1, List.mem_cons]
      · by_cases h2 : tname = hd
        · simp [h1, h2, DB.setRows]
        · simp [h1, h2, DB.setRows, List.mem_cons]
  unfold clearAll
  obtain ⟨h1, h2⟩ := general db.schema.sortedTables.reverse db
  refine ⟨h1, fun tname => ?_⟩
  rw [h2 tname]
  simp [List.mem_reverse]

lemma saveRefFiles_mem_aux (db : DB) (f : String × List JRow) :
    ∀ (refs : List String) (acc : List (String × List JRow)),
      f ∈ refs.foldl
        (fun fs tname =>
          if (findTable db.schema tname).isSome then
            match saveReferenceTableFile db tname with
            | some g => fs ++ [g]
            | none => fs
          else fs) acc →
      f ∈ acc ∨ ∃ t, t ∈ refs ∧ (findTable db.schema t).isSome = true ∧
        f = (t ++ ".json", encodeTable (db.rows t)) ∧ db.rows t ≠ [] := by
  intro refs
  induction refs with
  | nil => intro acc h; exact Or.inl h
  | cons t rest ih =>
    intro acc h
    simp only [List.foldl_cons] at h
    rcases ih _ h with h1 | h1
    · by_cases hf : (findTable db.schema t).isSome
      · rw [if_pos hf] at h1
        cases hsv : saveReferenceTableFile db t with
        | none =>
          rw [hsv] at h1
          exact Or.inl h1
        | some g =>
          rw [hsv] at h1
          rcases List.mem_append.mp h1 with h2 | h2
          · exact Or.inl h2
          · simp only [List.mem_singleton] at h2
            unfold saveReferenceTableFile at hsv
            by_cases hlen : (db.rows t).length > 0
            · rw [if_pos hlen] at hsv
              refine Or.inr ⟨t, List.mem_cons_self _ _, hf, ?_, ?_⟩
              · rw [h2, ← Option.some.inj hsv]
              · intro hnil
                rw [hnil] at hlen
                simp at hlen
            · rw [if_neg hlen] at hsv
              cases hsv
      · rw [if_neg hf] at h1
        exact Or.inl h1
    · rcases h1 with ⟨t2, ht2, rest2⟩
      exact Or.inr ⟨t2, List.mem_cons.mpr (Or.inr ht2), rest2⟩

lemma saveRefFiles_mem (db : DB) (f : String × List JRow) (h : f ∈ saveRefFiles db) :
    ∃ t, t ∈ db.schema.referenceTables ∧ (findTable db.schema t).isSome = true ∧
      f = (t ++ ".json", encodeTable (db.rows t)) ∧ db.rows t ≠ [] := by
  rcases saveRefFiles_mem_aux db f db.schema.referenceTables [] h with h1 | h1
  · exact absurd h1 (List.not_mem_nil f)
  · exact h1

lemma strAppend_cancel (a b c : String) (h : a ++ c = b ++ c) : a = b := by
  have hd : a.data ++ c.data = b.data ++ c.data := by
    have := congrArg String.data h
    simpa [String.data_append] using this
  have hdata : a.data = b.data := List.append_cancel_right hd
  cases a
  cases b
  exact congrArg String.mk hdata

lemma findTable_mem (s : DBSchema) (tname : String) (ts : TableSchema)
    (h : findTable s tname = some ts) : ts ∈ s.tables ∧ ts.name = tname := by
  unfold findTable at h
  refine ⟨List.mem_of_find?_eq_some h, ?_⟩
  have := List.find?_some h
  simpa using this

lemma findTable_isSome_of_mem (s : DBSchema) (tname : String)
    (h : tname ∈ s.tables.map (fun t => t.name)) : (findTable s tname).isSome = true := by
  rcases List.mem_map.mp h with ⟨t, ht, hname⟩
  unfold findTable
  rw [List.find?_isSome]
  exact ⟨t, ht, by simp [hname]⟩

lemma keysOf_decodeRowRaw_encodeRow (r : Row) :
    keysOf (decodeRowRaw (encodeRow r)) = keysOf r := by
  unfold decodeRowRaw encodeRow keysOf
  rw [List.map_map, List.map_map]
  rfl

lemma keysOf_decodeRowHook_encodeRow (r : Row) :
    keysOf (decodeRowHook (encodeRow r)) = keysOf r := by
  unfold decodeRowHook encodeRow keysOf
  rw [List.map_map, List.map_map]
  rfl

lemma insertVals_of_guard (cols : List String) (d : Row)
    (hg : ∀ kv ∈ d, kv.1 ∈ cols) :
    insertVals cols d = some (cols.map (fun c => (c, (alookup c d).getD Value.vnull))) := by
  unfold insertVals
  rw [if_pos (by rw [List.all_eq_true]; intro kv hkv; simpa using hg kv hkv)]

lemma mapM_insertVals_isSome (cols : List String) :
    ∀ ds : List Row, (∀ d ∈ ds, ∀ kv ∈ d, kv.1 ∈ cols) →
      ∃ rs, ds.mapM (insertVals cols) = some rs := by
  intro ds
  induction ds with
  | nil => intro _; exact ⟨[], rfl⟩
  | cons d rest ih =>
    intro h
    rcases ih (fun d2 h2 => h d2 (List.mem_cons.mpr (Or.inr h2))) with ⟨rs, hrs⟩
    refine ⟨cols.map (fun c => (c, (alookup c d).getD Value.vnull)) :: rs, ?_⟩
    rw [List.mapM_cons, insertVals_of_guard cols d (h d (List.mem_cons_self _ _)), hrs]
    rfl

lemma insertBatch_ok (dbc : DB) (tname : String) (ds : List Row) (ts : TableSchema)
    (hft : findTable dbc.schema tname = some ts)
    (hg : ∀ d ∈ ds, ∀ kv ∈ d, kv.1 ∈ ts.columns) :
    ∃ rs, insertBatch dbc tname ds = .ok (dbc.appendRows tname rs) := by
  unfold insertBatch
  rcases mapM_insertVals_isSome ts.columns ds hg with ⟨rs, hrs⟩
  refine ⟨rs, ?_⟩
  simp only [hft, hrs]

lemma appendRows_rows (dbc : DB) (tname : String) (rs : List Row) (t2 : String) :
    (dbc.appendRows tname rs).rows t2 =
      if t2 = tname then dbc.rows tname ++ rs else dbc.rows t2 := rfl

lemma appendRows_schema (dbc : DB) (tname : String) (rs : List Row) :
    (dbc.appendRows tname rs).schema = dbc.schema := rfl

lemma loadTable_found (db dbc : DB) (t : String) (content : List JRow)
    (hschema : dbc.schema = db.schema)
    (hlk : alookup (t ++ ".json") (saveRefFiles db) = some content)
    (hwf : ∀ ts ∈ db.schema.tables, ∀ r ∈ db.rows ts.name, keysOf r = ts.columns) :
    ∃ rs, loadTable dbc (saveRefFiles db) t = .ok (dbc.appendRows t rs) := by
  have hmem := alookup_mem _ _ _ hlk
  rcases saveRefFiles_mem db _ hmem with ⟨t2, ht2, hfind, heq, hne⟩
  have hname : t = t2 := strAppend_cancel t t2 ".json" (congrArg Prod.fst heq)
  subst hname
  have hcontent : content = encodeTable (db.rows t) := congrArg Prod.snd heq
  rcases Option.isSome_iff_exists.mp hfind with ⟨ts, hts⟩
  obtain ⟨htsmem, htsname⟩ := findTable_mem db.schema t ts hts
  unfold loadTable
  rw [hlk]
  refine insertBatch_ok dbc t _ ts (by rw [hschema]; exact hts) ?_
  intro d hd kv hkv
  rw [hcontent] at hd
  unfold decodeTableRaw encodeTable at hd
  rw [List.map_map] at hd
  rcases List.mem_map.mp hd with ⟨r, hr, hd2⟩
  have hkeys : keysOf d = keysOf r := by
    rw [← hd2]
    exact keysOf_decodeRowRaw_encodeRow r
  have hkcol : kv.1 ∈ keysOf d := List.mem_map.mpr ⟨kv, hkv, rfl⟩
  rw [hkeys, hwf ts htsmem r (by rw [htsname]; exact hr)] at hkcol
  exact hkcol

lemma loadRefPhase_spec (db db0 : DB)
    (hschema : db0.schema = db.schema)
    (hwf : ∀ ts ∈ db.schema.tables, ∀ r ∈ db.rows ts.name, keysOf r = ts.columns) :
    ∃ db1, loadRefPhase db0 (saveRefFiles db) [] = .ok db1 ∧
      db1.schema = db.schema ∧
      ∀ tname, tname ∉ db.schema.referenceTables → db1.rows tname = db0.rows tname := by
  unfold loadRefPhase
  rw [hschema]
  suffices hloop : ∀ (refs : List String) (dbc : DB), dbc.schema = db.schema →
      (∀ t ∈ refs, t ∈ db.schema.referenceTables) →
      ∃ db1, refs.foldlM (fun d tname =>
          if (alookup (tname ++ ".json") (saveRefFiles db)).isSome then
            loadTable d (saveRefFiles db) tname
          else loadTable d ([] : List (String × List JRow)) tname) dbc = .ok db1 ∧
        db1.schema = db.schema ∧
        ∀ tname, tname ∉ db.schema.referenceTables → db1.rows tname = dbc.rows tname by
    exact hloop db.schema.referenceTables db0 hschema (fun t ht => ht)
  intro refs
  induction refs with
  | nil =>
    intro dbc hs _
    exact ⟨dbc, rfl, hs, fun _ _ => rfl⟩
  | cons t rest ih =>
    intro dbc hs hsub
    simp only [List.foldlM_cons]
    by_cases hlk : (alookup (t ++ ".json") (saveRefFiles db)).isSome = true
    · rcases Option.isSome_iff_exists.mp hlk with ⟨content, hcontent⟩
      rcases loadTable_found db dbc t content hs hcontent hwf with ⟨rs, hlt⟩
      rw [if_pos hlk, hlt]
      rcases ih (dbc.appendRows t rs) (by rw [appendRows_schema]; exact hs)
        (fun t2 h2 => hsub t2 (List.mem_cons.mpr (Or.inr h2))) with
        ⟨db1, hfold, hsch, hun⟩
      refine ⟨db1, ?_, hsch, ?_⟩
      · exact hfold
      · intro tname hnt
        rw [hun tname hnt, appendRows_rows]
        rw [if_neg (fun he : tname = t => hnt (he ▸ hsub t (List.mem_cons_self _ _)))]
    · rw [if_neg hlk]
      have hskip : loadTable dbc ([] : List (String × List JRow)) t = .ok dbc := by
        unfold loadTable
        simp [alookup]
      rw [hskip]
      rcases ih dbc hs (fun t2 h2 => hsub t2 (List.mem_cons.mpr (Or.inr h2))) with
        ⟨db1, hfold, hsch, hun⟩
      exact ⟨db1, hfold, hsch, hun⟩

lemma isStrOpt_some (v : Value) (h : isStrOpt (some v) = true) :
    ∃ id, v = Value.vstr id := by
  cases v
  case vstr s => exact ⟨s, rfl⟩
  all_goals simp [isStrOpt] at h

lemma mem_idsOf (db : DB) (id : String) (h : id ∈ idsOf db) :
    ∃ r ∈ db.rows db.schema.primaryTable,
      alookup db.schema.primaryKey r = some (Value.vstr id) := by
  unfold idsOf rowIds at h
  rcases List.mem_filterMap.mp h with ⟨r, hr, hs⟩
  refine ⟨r, hr, ?_⟩
  cases hlk : alookup db.schema.primaryKey r with
  | none =>
    rw [hlk] at hs
    exact absurd hs (by simp [strOfOpt])
  | some v =>
    rw [hlk] at hs
    cases v
    case vstr s =>
      simp only [strOfOpt, Option.some.injEq] at hs
      rw [hs]
    all_goals simp [strOfOpt] at hs

lemma matchingRows_mem (db : DB) (t : String) (x : Value) (r : Row)
    (h : r ∈ matchingRows db t x) :
    r ∈ db.rows t ∧ alookup (colOf db.schema t) r = some x := by
  unfold matchingRows at h
  have h2 := List.mem_filter.mp h
  exact ⟨h2.1, by simpa using h2.2⟩

lemma matchingRows_mem_of (db : DB) (t : String) (x : Value) (r : Row)
    (hr : r ∈ db.rows t) (hlk : alookup (colOf db.schema t) r = some x) :
    r ∈ matchingRows db t x := by
  unfold matchingRows
  exact List.mem_filter.mpr ⟨hr, by simpa using hlk⟩

lemma colOf_primary (s : DBSchema) : colOf s s.primaryTable = s.primaryKey := by
  unfold colOf
  rw [if_pos rfl]

lemma colOf_other (s : DBSchema) (t : String) (h : t ≠ s.primaryTable) :
    colOf s t = s.foreignKey := by
  unfold colOf
  rw [if_neg h]

lemma inventory_cons (db : DB) (x : Value)
    (hne : matchingRows db db.schema.primaryTable x ≠ []) :
    inventory db x =
      (db.schema.primaryTable, matchingRows db db.schema.primaryTable x) ::
        ((db.schema.tables.map (fun t => t.name)).filter
            (fun tname =>
              decide (tname ∉ db.schema.referenceTables ++ [db.schema.primaryTable]))).filterMap
          (entryOpt db x) := by
  have hopt : entryOpt db x db.schema.primaryTable =
      some (db.schema.primaryTable, matchingRows db db.schema.primaryTable x) := by
    unfold entryOpt
    rw [if_neg hne, if_pos rfl]
  rw [inventory_eq]
  unfold inventoryTables
  rw [List.filterMap_cons, hopt]

lemma tailEntry_spec (db : DB) (x : Value) (e : String × List Row)
    (h : e ∈ ((db.schema.tables.map (fun t => t.name)).filter
        (fun tname =>
          decide (tname ∉ db.schema.referenceTables ++ [db.schema.primaryTable]))).filterMap
      (entryOpt db x)) :
    e.1 ∈ db.schema.tables.map (fun t => t.name) ∧
      e.1 ∉ db.schema.referenceTables ∧ e.1 ≠ db.schema.primaryTable ∧
      e.2 = (matchingRows db e.1 x).map (rowCleanup db.schema) ∧
      matchingRows db e.1 x ≠ [] := by
  rcases List.mem_filterMap.mp h with ⟨t, ht, hopt⟩
  have hkey : e.1 = t := entryOpt_key db x t e hopt
  have hfil := List.mem_filter.mp ht
  have hmem := hfil.1
  have hcond := hfil.2
  simp only [decide_eq_true_eq, List.mem_append, List.mem_singleton] at hcond
  push_neg at hcond
  unfold entryOpt at hopt
  by_cases hr : matchingRows db t x = []
  · rw [if_pos hr] at hopt
    cases hopt
  · rw [if_neg hr, if_neg hcond.2] at hopt
    have he : e = (t, (matchingRows db t x).map (rowCleanup db.schema)) :=
      (Option.some.inj hopt).symm
    subst he
    exact ⟨hmem, hcond.1, hcond.2, rfl, hr⟩

lemma putFile_not_mem {α : Type} (files : List (String × α)) (name : String) (c : α)
    (h : name ∉ files.map (fun f => f.1)) :
    putFile files name c = files ++ [(name, c)] := by
  unfold putFile
  rw [if_neg (by simpa using h)]

lemma saveSourceFiles_loop (db : DB) :
    ∀ (rows : List Row) (acc : List (String × JDoc)),
      (∀ r ∈ rows, isStrOpt (alookup db.schema.primaryKey r) = true) →
      (acc.map (fun f => f.1) ++
        (rowIds db.schema rows).map (fun id => slugFilename id)).Nodup →
      rows.foldl
        (fun fs r =>
          match alookup db.schema.primaryKey r with
          | some v => putFile fs (saveJsonFile db v).1 (saveJsonFile db v).2
          | none => fs) acc =
        acc ++ (rowIds db.schema rows).map
          (fun id => (slugFilename id, encodeDoc (inventory db (Value.vstr id)))) := by
  intro rows
  induction rows with
  | nil =>
    intro acc _ _
    simp [rowIds]
  | cons r rest ih =>
    intro acc hstr hnd
    simp only [List.foldl_cons]
    cases hlk : alookup db.schema.primaryKey r with
    | none =>
      have hcon := hstr r (List.mem_cons_self _ _)
      rw [hlk] at hcon
      exact absurd hcon (by simp [isStrOpt])
    | some v =>
      have hcon := hstr r (List.mem_cons_self _ _)
      rw [hlk] at hcon
      rcases isStrOpt_some v hcon with ⟨id, rfl⟩
      have hids : rowIds db.schema (r :: rest) = id :: rowIds db.schema rest := by
        unfold rowIds
        rw [List.filterMap_cons, hlk]
        rfl
      rw [hids] at hnd
      have hnotin : slugFilename id ∉ acc.map (fun f => f.1) := by
        rcases List.nodup_append.mp hnd with ⟨_, _, hdisj⟩
        intro hmem
        exact hdisj hmem (List.mem_cons_self _ _)
      have hstep : (match some (Value.vstr id) with
          | some v => putFile acc (saveJsonFile db v).1 (saveJsonFile db v).2
          | none => acc) =
          acc ++ [(slugFilename id, encodeDoc (inventory db (Value.vstr id)))] :=
        putFile_not_mem acc (slugFilename id)
          (encodeDoc (inventory db (Value.vstr id))) hnotin
      rw [hstep]
      rw [ih (acc ++ [(slugFilename id, encodeDoc (inventory db (Value.vstr id)))])
        (fun r2 h2 => hstr r2 (List.mem_cons.mpr (Or.inr h2))) ?_, hids]
      · simp
      · simp only [List.map_append]
        rw [List.append_assoc]
        simpa using hnd

lemma saveSourceFiles_eq (db : DB)
    (hstr : ∀ r ∈ db.rows db.schema.primaryTable,
      isStrOpt (alookup db.schema.primaryKey r) = true)
    (hslug : ((idsOf db).map (fun id => slugFilename id)).Nodup) :
    saveSourceFiles db = (idsOf db).map
      (fun id => (slugFilename id, encodeDoc (inventory db (Value.vstr id)))) := by
  unfold saveSourceFiles
  rw [saveSourceFiles_loop db _ [] hstr (by simpa using hslug)]
  simp [idsOf]

lemma mapM_insertVals_self (cols : List String) (hnd : cols.Nodup) :
    ∀ ds : List Row, (∀ d ∈ ds, keysOf d = cols) →
      ds.mapM (insertVals cols) = some ds := by
  intro ds
  induction ds with
  | nil => intro _; rfl
  | cons d rest ih =>
    intro h
    rw [List.mapM_cons, insertVals_self cols d (h d (List.mem_cons_self _ _)) hnd,
      ih (fun d2 h2 => h d2 (List.mem_cons.mpr (Or.inr h2)))]
    rfl

lemma insertBatch_eval (dbc : DB) (tname : String) (ds rs : List Row) (ts : TableSchema)
    (hft : findTable dbc.schema tname = some ts)
    (hmapm : ds.mapM (insertVals ts.columns) = some rs) :
    insertBatch dbc tname ds = .ok (dbc.appendRows tname rs) := by
  unfold insertBatch
  simp only [hft, hmapm]

lemma pyEndsWith_json (a : String) : pyEndsWith (a ++ ".json") ".json" = true := by
  unfold pyEndsWith
  rw [String.data_append]
  have hlen : (a.data ++ ".json".data).length - ".json".data.length = a.data.length := by
    rw [List.length_append]
    omega
  rw [hlen, List.drop_left]
  simp

lemma isSourceFile_slug (s : DBSchema) (id : String)
    (hdot : pyStartsWith (slugFilename id) "." = false)
    (href : pyReplace (slugFilename id) ".json" "" ∉ s.referenceTables) :
    isSourceFile s (slugFilename id) = true := by
  have hend : pyEndsWith (slugFilename id) ".json" = true := by
    unfold slugFilename
    exact pyEndsWith_json _
  have hcont : s.referenceTables.contains (pyReplace (slugFilename id) ".json" "") =
      false := by
    simpa using href
  unfold isSourceFile
  rw [hend, hdot, hcont]
  rfl

lemma rows_codecSafe_of_name (db : DB)
    (hsafe : ∀ t ∈ db.schema.tables, ∀ r ∈ db.rows t.name, ∀ kv ∈ r, Value.codecSafe kv.2)
    (tname : String) (hmem : tname ∈ db.schema.tables.map (fun t => t.name)) :
    ∀ r ∈ db.rows tname, ∀ kv ∈ r, Value.codecSafe kv.2 := by
  rcases List.mem_map.mp hmem with ⟨ts, hts, hname⟩
  intro r hr
  exact hsafe ts hts r (by rw [hname]; exact hr)

lemma inventory_codecSafe (db : DB)
    (hsafe : ∀ t ∈ db.schema.tables, ∀ r ∈ db.rows t.name, ∀ kv ∈ r, Value.codecSafe kv.2)
    (hprim : db.schema.primaryTable ∈ db.schema.tables.map (fun t => t.name))
    (x : Value) :
    docCodecSafe (inventory db x) := by
  intro e he r hr kv hkv
  rw [inventory_eq] at he
  rcases List.mem_filterMap.mp he with ⟨t, htmem, hopt⟩
  have htname : t ∈ db.schema.tables.map (fun t => t.name) := by
    unfold inventoryTables at htmem
    rcases List.mem_cons.mp htmem with h1 | h1
    · rw [h1]
      exact hprim
    · exact (List.mem_filter.mp h1).1
  have hrows := rows_codecSafe_of_name db hsafe t htname
  unfold entryOpt at hopt
  by_cases hmr : matchingRows db t x = []
  · rw [if_pos hmr] at hopt
    cases hopt
  · by_cases ht : t = db.schema.primaryTable
    · rw [if_neg hmr, if_pos ht] at hopt
      have he2 : e = (t, matchingRows db t x) := (Option.some.inj hopt).symm
      subst he2
      have hr2 := (matchingRows_mem db t x r hr).1
      exact hrows r hr2 kv hkv
    · rw [if_neg hmr, if_neg ht] at hopt
      have he2 : e = (t, (matchingRows db t x).map (rowCleanup db.schema)) :=
        (Option.some.inj hopt).symm
      subst he2
      rcases List.mem_map.mp hr with ⟨r0, hr0, hclean⟩
      have hr02 := (matchingRows_mem db t x r0 hr0).1
      have hkv0 : kv ∈ r0 := by
        rw [← hclean] at hkv
        exact keysOf_delKey_subset db.schema.foreignKey r0 kv hkv
      exact hrows r0 hr02 kv hkv0

lemma execBlock (db : DB) (x : Value) (t : String) (ts : TableSchema)
    (htfind : findTable db.schema t = some ts)
    (hndcols : ts.columns.Nodup)
    (ht : t ≠ db.schema.primaryTable)
    (hwf : ∀ r ∈ db.rows t, keysOf r = ts.columns) :
    ∀ (ms : List Row) (dbc : DB), dbc.schema = db.schema →
      (∀ m ∈ ms, m ∈ matchingRows db t x) →
      ∃ db2,
        ((ms.map (rowCleanup db.schema)).map
            (fun v => (t, [setKey db.schema.foreignKey x v]))).foldlM
          (fun d op => insertBatch d op.1 op.2) dbc = .ok db2 ∧
        db2.schema = db.schema ∧
        ∀ t2, db2.rows t2 = if t2 = t then dbc.rows t2 ++ ms else dbc.rows t2 := by
  intro ms
  induction ms with
  | nil =>
    intro dbc hs _
    refine ⟨dbc, rfl, hs, fun t2 => ?_⟩
    by_cases h2 : t2 = t <;> simp [h2]
  | cons m rest ih =>
    intro dbc hs hmem
    have hm := hmem m (List.mem_cons_self _ _)
    obtain ⟨hmrows, hmlk⟩ := matchingRows_mem db t x m hm
    have hmlk2 : alookup db.schema.foreignKey m = some x := by
      rw [← colOf_other db.schema t ht]
      exact hmlk
    have hone : insertVals ts.columns
        (setKey db.schema.foreignKey x (delKey db.schema.foreignKey m)) = some m :=
      insertVals_reattach ts.columns db.schema.foreignKey x m (hwf m hmrows)
        hndcols hmlk2
    have hmapm : [setKey db.schema.foreignKey x (rowCleanup db.schema m)].mapM
        (insertVals ts.columns) = some [m] := by
      rw [List.mapM_cons]
      unfold rowCleanup
      rw [hone]
      rfl
    have hfirst : insertBatch dbc t [setKey db.schema.foreignKey x (rowCleanup db.schema m)] =
        .ok (dbc.appendRows t [m]) :=
      insertBatch_eval dbc t _ [m] ts (by rw [hs]; exact htfind) hmapm
    simp only [List.map_cons, List.foldlM_cons]
    rw [hfirst]
    rcases ih (dbc.appendRows t [m]) (by rw [appendRows_schema]; exact hs)
      (fun m2 h2 => hmem m2 (List.mem_cons.mpr (Or.inr h2))) with ⟨db2, hfold, hsch, hrows⟩
    refine ⟨db2, hfold, hsch, ?_⟩
    intro t2
    rw [hrows t2, appendRows_rows]
    by_cases h2 : t2 = t
    · subst h2
      rw [if_pos rfl, if_pos rfl, if_pos rfl, List.append_assoc]
      rfl
    · rw [if_neg h2, if_neg h2, if_neg h2]

lemma foldlM_append_except {α β : Type} (f : β → α → Except String β) :
    ∀ (l1 l2 : List α) (b : β),
      (l1 ++ l2).foldlM f b = (l1.foldlM f b) >>= fun b2 => l2.foldlM f b2 := by
  intro l1
  induction l1 with
  | nil =>
    intro l2 b
    simp
  | cons a l1x ih =>
    intro l2 b
    simp only [List.cons_append, List.foldlM_cons]
    cases hfa : f b a with
    | error e =>
      rfl
    | ok b2 =>
      show (l1x ++ l2).foldlM f b2 = l1x.foldlM f b2 >>= fun b3 => l2.foldlM f b3
      exact ih l2 b2

lemma execEntries (db : DB) (x : Value)
    (hcols : ∀ ts ∈ db.schema.tables, ts.columns.Nodup)
    (hwfAll : ∀ ts ∈ db.schema.tables, ∀ r ∈ db.rows ts.name, keysOf r = ts.columns) :
    ∀ (entries : List (String × List Row)) (dbc : DB), dbc.schema = db.schema →
      (∀ e ∈ entries, e.1 ∈ db.schema.tables.map (fun t => t.name) ∧
        e.1 ≠ db.schema.primaryTable ∧
        e.2 = (matchingRows db e.1 x).map (rowCleanup db.schema)) →
      ∃ db2,
        (entries.flatMap
            (fun kv => kv.2.map (fun v => (kv.1, [setKey db.schema.foreignKey x v])))).foldlM
          (fun d op => insertBatch d op.1 op.2) dbc = .ok db2 ∧
        db2.schema = db.schema ∧
        ∀ t2, db2.rows t2 = dbc.rows t2 ++
          ((entries.map (fun e => if e.1 = t2 then matchingRows db t2 x else [])).flatten) := by
  intro entries
  induction entries with
  | nil =>
    intro dbc hs _
    exact ⟨dbc, rfl, hs, fun t2 => by simp⟩
  | cons e rest ih =>
    intro dbc hs hval
    obtain ⟨hmem, hne, hshape⟩ := hval e (List.mem_cons_self _ _)
    have hfs := findTable_isSome_of_mem db.schema e.1 hmem
    rcases Option.isSome_iff_exists.mp hfs with ⟨ts, hts⟩
    obtain ⟨htsmem, htsname⟩ := findTable_mem db.schema e.1 ts hts
    have hwft : ∀ r ∈ db.rows e.1, keysOf r = ts.columns := by
      intro r hr
      exact hwfAll ts htsmem r (by rw [htsname]; exact hr)
    rcases execBlock db x e.1 ts hts (hcols ts htsmem) hne hwft (matchingRows db e.1 x)
      dbc hs (fun m hm => hm) with ⟨db1, hblock, hsch1, hrows1⟩
    simp only [List.flatMap_cons]
    rw [hshape, foldlM_append_except, hblock]
    rcases ih db1 hsch1 (fun e2 h2 => hval e2 (List.mem_cons.mpr (Or.inr h2))) with
      ⟨db2, hfold, hsch2, hrows2⟩
    refine ⟨db2, hfold, hsch2, ?_⟩
    intro t2
    rw [hrows2 t2, hrows1 t2]
    simp only [List.map_cons, List.flatten_cons]
    by_cases h2 : t2 = e.1
    · subst h2
      rw [if_pos rfl, if_pos rfl, List.append_assoc]
    · rw [if_neg h2, if_neg (fun he : e.1 = t2 => h2 he.symm)]
      rw [List.nil_append]

lemma flatten_entries (db : DB) (x : Value) (t2 : String) :
    ∀ L : List String, L.Nodup →
      (((L.filterMap (entryOpt db x)).map
        (fun e => if e.1 = t2 then matchingRows db t2 x else [])).flatten) =
      if t2 ∈ L then matchingRows db t2 x else [] := by
  intro L
  induction L with
  | nil => intro _; simp
  | cons a L2 ih =>
    intro hnd
    rcases List.nodup_cons.mp hnd with ⟨hna, hnd2⟩
    rw [List.filterMap_cons]
    cases hopt : entryOpt db x a with
    | none =>
      have hmra : matchingRows db a x = [] := by
        unfold entryOpt at hopt
        by_cases hmr : matchingRows db a x = []
        · exact hmr
        · rw [if_neg hmr] at hopt
          by_cases ha : a = db.schema.primaryTable
          · rw [if_pos ha] at hopt
            cases hopt
          · rw [if_neg ha] at hopt
            cases hopt
      rw [ih hnd2]
      by_cases hm : t2 ∈ L2
      · rw [if_pos hm, if_pos (List.mem_cons.mpr (Or.inr hm))]
      · rw [if_neg hm]
        by_cases he : t2 = a
        · subst he
          rw [if_pos (List.mem_cons_self _ _), hmra]
        · rw [if_neg (fun hmem =>
            (List.mem_cons.mp hmem).elim he (fun h2 => hm h2))]
    | some e =>
      have hkey : e.1 = a := entryOpt_key db x a e hopt
      simp only [List.map_cons, List.flatten_cons]
      rw [ih hnd2, hkey]
      by_cases he : a = t2
      · subst he
        rw [if_pos rfl, if_pos (List.mem_cons_self _ _),
          if_neg (fun hm : a ∈ L2 => hna hm)]
        simp
      · rw [if_neg he, List.nil_append]
        by_cases hm : t2 ∈ L2
        · rw [if_pos hm, if_pos (List.mem_cons.mpr (Or.inr hm))]
        · rw [if_neg hm,
            if_neg (fun hmem =>
              (List.mem_cons.mp hmem).elim (fun h2 => he h2.symm) (fun h2 => hm h2))]

lemma loadJsonOps_shape (s : DBSchema) (r0 : Row) (rs2 : List Row) (rest : Document)
    (x : Value)
    (hpk0 : alookup s.primaryKey r0 = some x)
    (hrest : ∀ e ∈ rest, e.1 ≠ s.primaryTable) :
    loadJsonOps s ((s.primaryTable, r0 :: rs2) :: rest) =
      .ok ((s.primaryTable, r0 :: rs2) ::
        rest.flatMap (fun kv => kv.2.map (fun v => (kv.1, [setKey s.foreignKey x v])))) := by
  have halk : alookup s.primaryTable ((s.primaryTable, r0 :: rs2) :: rest) =
      some (r0 :: rs2) := by
    unfold alookup
    rw [if_pos rfl]
  have hfil : (((s.primaryTable, r0 :: rs2) :: rest).filter
      (fun kv => decide (kv.1 ≠ s.primaryTable))) = rest := by
    rw [List.filter_cons_of_neg (by simp)]
    exact List.filter_eq_self.mpr (fun e he => by simpa using hrest e he)
  unfold loadJsonOps
  simp only [halk, hpk0, hfil]

lemma loadJson_effect (db : DB) (id : String) (hid : id ∈ idsOf db)
    (hTabNodup : (db.schema.tables.map (fun t => t.name)).Nodup)
    (hPrimMem : db.schema.primaryTable ∈ db.schema.tables.map (fun t => t.name))
    (hcols : ∀ ts ∈ db.schema.tables, ts.columns.Nodup)
    (hwfAll : ∀ ts ∈ db.schema.tables, ∀ r ∈ db.rows ts.name, keysOf r = ts.columns) :
    ∀ (dbc : DB), dbc.schema = db.schema →
      ∃ db2, loadJson dbc (inventory db (Value.vstr id)) = .ok db2 ∧
        db2.schema = db.schema ∧
        ∀ t2, db2.rows t2 = dbc.rows t2 ++
          (if t2 ∈ inventoryTables db.schema then matchingRows db t2 (Value.vstr id)
           else []) := by
  intro dbc hs
  rcases mem_idsOf db id hid with ⟨rp, hrp, hrlk⟩
  have hrpm : rp ∈ matchingRows db db.schema.primaryTable (Value.vstr id) :=
    matchingRows_mem_of db _ _ rp hrp (by rw [colOf_primary]; exact hrlk)
  have hprs : matchingRows db db.schema.primaryTable (Value.vstr id) ≠ [] := by
    intro hnil
    rw [hnil] at hrpm
    exact absurd hrpm (List.not_mem_nil rp)
  have hdoc := inventory_cons db (Value.vstr id) hprs
  rcases List.exists_cons_of_ne_nil hprs with ⟨r0, rs2, hcons⟩
  have hr0m : r0 ∈ matchingRows db db.schema.primaryTable (Value.vstr id) := by
    rw [hcons]
    exact List.mem_cons_self _ _
  have hpk0 : alookup db.schema.primaryKey r0 = some (Value.vstr id) := by
    have h2 := (matchingRows_mem db _ _ r0 hr0m).2
    rw [colOf_primary] at h2
    exact h2
  set rest := ((db.schema.tables.map (fun t => t.name)).filter
      (fun tname =>
        decide (tname ∉ db.schema.referenceTables ++ [db.schema.primaryTable]))).filterMap
    (entryOpt db (Value.vstr id)) with hrestdef
  have hrestspec := fun e he => tailEntry_spec db (Value.vstr id) e he
  have hrestne : ∀ e ∈ rest, e.1 ≠ db.schema.primaryTable := by
    intro e he
    exact (hrestspec e he).2.2.1
  have hops := loadJsonOps_shape db.schema r0 rs2 rest (Value.vstr id) hpk0 hrestne
  -- primary table schema
  have hfsp := findTable_isSome_of_mem db.schema db.schema.primaryTable hPrimMem
  rcases Option.isSome_iff_exists.mp hfsp with ⟨pt, hpt⟩
  obtain ⟨hptmem, hptname⟩ := findTable_mem db.schema db.schema.primaryTable pt hpt
  have hwfp : ∀ r ∈ db.rows db.schema.primaryTable, keysOf r = pt.columns := by
    intro r hr
    exact hwfAll pt hptmem r (by rw [hptname]; exact hr)
  have hfirst : insertBatch dbc db.schema.primaryTable
      (matchingRows db db.schema.primaryTable (Value.vstr id)) =
      .ok (dbc.appendRows db.schema.primaryTable
        (matchingRows db db.schema.primaryTable (Value.vstr id))) := by
    refine insertBatch_eval dbc _ _ _ pt (by rw [hs]; exact hpt) ?_
    refine mapM_insertVals_self pt.columns (hcols pt hptmem) _ ?_
    intro d hd
    exact hwfp d (matchingRows_mem db _ _ d hd).1
  rcases execEntries db (Value.vstr id) hcols hwfAll rest
    (dbc.appendRows db.schema.primaryTable
      (matchingRows db db.schema.primaryTable (Value.vstr id)))
    (by rw [appendRows_schema]; exact hs)
    (fun e he => ⟨(hrestspec e he).1, (hrestspec e he).2.2.1, (hrestspec e he).2.2.2.1⟩)
    with ⟨db2, hfold, hsch2, hrows2⟩
  refine ⟨db2, ?_, hsch2, ?_⟩
  · unfold loadJson
    rw [hs, hdoc, hcons, hops]
    show ((db.schema.primaryTable, r0 :: rs2) ::
        rest.flatMap
          (fun kv => kv.2.map
            (fun v => (kv.1, [setKey db.schema.foreignKey (Value.vstr id) v])))).foldlM
      (fun d op => insertBatch d op.1 op.2) dbc = .ok db2
    rw [List.foldlM_cons, ← hcons, hfirst]
    exact hfold
  · intro t2
    rw [hrows2 t2, appendRows_rows]
    have hflat : ((rest.map
        (fun e => if e.1 = t2 then matchingRows db t2 (Value.vstr id) else [])).flatten) =
        if t2 ∈ (db.schema.tables.map (fun t => t.name)).filter
            (fun tname =>
              decide (tname ∉ db.schema.referenceTables ++ [db.schema.primaryTable])) then
          matchingRows db t2 (Value.vstr id)
        else [] := by
      rw [hrestdef]
      exact flatten_entries db (Value.vstr id) t2 _ (hTabNodup.filter _)
    rw [hflat]
    have hnotL : db.schema.primaryTable ∉
        (db.schema.tables.map (fun t => t.name)).filter
          (fun tname =>
            decide (tname ∉ db.schema.referenceTables ++ [db.schema.primaryTable])) := by
      intro hmem
      have := (List.mem_filter.mp hmem).2
      simp at this
    by_cases hp : t2 = db.schema.primaryTable
    · subst hp
      rw [if_pos rfl, if_neg hnotL, List.append_nil]
      unfold inventoryTables
      rw [if_pos (List.mem_cons_self _ _)]
    · rw [if_neg hp]
      unfold inventoryTables
      by_cases hm : t2 ∈ (db.schema.tables.map (fun t => t.name)).filter
          (fun tname =>
            decide (tname ∉ db.schema.referenceTables ++ [db.schema.primaryTable]))
      · rw [if_pos hm, if_pos (List.mem_cons.mpr (Or.inr hm))]
      · rw [if_neg hm,
          if_neg (fun hmem =>
            (List.mem_cons.mp hmem).elim hp (fun h2 => hm h2)), List.append_nil]

lemma sourcePhase_spec (db : DB) (h : exportSafe db) :
    ∀ ids2 : List String, (∀ id ∈ ids2, id ∈ idsOf db) →
      ∀ dbc : DB, dbc.schema = db.schema →
      ∃ db2,
        ((ids2.map (fun id => (slugFilename id, encodeDoc (inventory db (Value.vstr id))))).foldlM
            (fun d f => if isSourceFile d.schema f.1 then loadJson d (decodeDocHook f.2)
              else pure d) dbc) = .ok db2 ∧
        db2.schema = db.schema ∧
        ∀ t2, db2.rows t2 = dbc.rows t2 ++
          (if t2 ∈ inventoryTables db.schema then
            ((ids2.map (fun id => matchingRows db t2 (Value.vstr id))).flatten)
          else []) := by
  obtain ⟨hA, hB, hC, hD, hE, hF, hG, hH, hI, hJ, hK, hL, hM⟩ := h
  intro ids2
  induction ids2 with
  | nil =>
    intro _ dbc hs
    refine ⟨dbc, rfl, hs, fun t2 => ?_⟩
    by_cases hm : t2 ∈ inventoryTables db.schema <;> simp [hm]
  | cons id rest ih =>
    intro hsub dbc hs
    have hid := hsub id (List.mem_cons_self _ _)
    simp only [List.map_cons, List.foldlM_cons]
    have hfil : isSourceFile dbc.schema (slugFilename id) = true := by
      rw [hs]
      exact isSourceFile_slug db.schema id (hL id hid).1 (hL id hid).2
    rw [if_pos hfil]
    have hcodec : decodeDocHook (encodeDoc (inventory db (Value.vstr id))) =
        inventory db (Value.vstr id) :=
      decode_encode_doc _ (inventory_codecSafe db hM hB _)
    rw [hcodec]
    rcases loadJson_effect db id hid hA hB hD hG dbc hs with ⟨db1, hload, hsch1, hrows1⟩
    rw [hload]
    rcases ih (fun i hi => hsub i (List.mem_cons.mpr (Or.inr hi))) db1 hsch1 with
      ⟨db2, hfold, hsch2, hrows2⟩
    refine ⟨db2, hfold, hsch2, ?_⟩
    intro t2
    rw [hrows2 t2, hrows1 t2]
    simp only [List.map_cons, List.flatten_cons]
    by_cases hm : t2 ∈ inventoryTables db.schema
    · rw [if_pos hm, if_pos hm, if_pos hm, List.append_assoc]
    · rw [if_neg hm, if_neg hm, if_neg hm]
      simp

lemma filter_block_self (db : DB) (t : String) (x : Value) :
    (matchingRows db t x).filter
      (fun r => decide (alookup (colOf db.schema t) r = some x)) = matchingRows db t x :=
  List.filter_eq_self.mpr (fun r hr => by
    simpa using (matchingRows_mem db t x r hr).2)

lemma filter_block_other (db : DB) (t : String) (id id2 : String) (hne : id2 ≠ id) :
    (matchingRows db t (Value.vstr id2)).filter
      (fun r => decide (alookup (colOf db.schema t) r = some (Value.vstr id))) = [] := by
  rw [List.filter_eq_nil_iff]
  intro r hr hdec
  have h1 := (matchingRows_mem db t (Value.vstr id2) r hr).2
  have h2 : alookup (colOf db.schema t) r = some (Value.vstr id) := by simpa using hdec
  rw [h1] at h2
  exact hne (Value.vstr.inj (Option.some.inj h2))

lemma filter_flatten_blocks (db : DB) (t : String) (id : String) :
    ∀ ids2 : List String, ids2.Nodup → id ∈ ids2 →
      ((ids2.map (fun id2 => matchingRows db t (Value.vstr id2))).flatten).filter
        (fun r => decide (alookup (colOf db.schema t) r = some (Value.vstr id))) =
      matchingRows db t (Value.vstr id) := by
  intro ids2
  induction ids2 with
  | nil =>
    intro _ hmem
    exact absurd hmem (List.not_mem_nil id)
  | cons a rest ih =>
    intro hnd hmem
    rcases List.nodup_cons.mp hnd with ⟨hna, hnd2⟩
    simp only [List.map_cons, List.flatten_cons, List.filter_append]
    by_cases ha : a = id
    · subst ha
      rw [filter_block_self]
      have hrest : ((rest.map (fun id2 => matchingRows db t (Value.vstr id2))).flatten).filter
          (fun r => decide (alookup (colOf db.schema t) r = some (Value.vstr a))) = [] := by
        rw [List.filter_eq_nil_iff]
        intro r hr hdec
        rcases List.mem_flatten.mp hr with ⟨block, hblock, hrb⟩
        rcases List.mem_map.mp hblock with ⟨id2, hid2, hbdef⟩
        rw [← hbdef] at hrb
        have h1 := (matchingRows_mem db t (Value.vstr id2) r hrb).2
        have h2 : alookup (colOf db.schema t) r = some (Value.vstr a) := by simpa using hdec
        rw [h1] at h2
        have h3 : id2 = a := Value.vstr.inj (Option.some.inj h2)
        rw [h3] at hid2
        exact hna hid2
      rw [hrest, List.append_nil]
    · have hmem2 : id ∈ rest := (List.mem_cons.mp hmem).resolve_left (fun he => ha he.symm)
      rw [ih hnd2 hmem2, filter_block_other db t id a ha, List.nil_append]

lemma filterMap_congr_mem {α β : Type} (l : List α) (f g : α → Option β)
    (h : ∀ a ∈ l, f a = g a) : l.filterMap f = l.filterMap g := by
  induction l with
  | nil => rfl
  | cons a rest ih =>
    rw [List.filterMap_cons, List.filterMap_cons, h a (List.mem_cons_self _ _),
      ih (fun a2 h2 => h a2 (List.mem_cons.mpr (Or.inr h2)))]

lemma inventory_congr (db dbF : DB) (x : Value)
    (hsch : dbF.schema = db.schema)
    (hmatch : ∀ t ∈ inventoryTables db.schema, matchingRows dbF t x = matchingRows db t x) :
    inventory dbF x = inventory db x := by
  rw [inventory_eq, inventory_eq, hsch]
  refine filterMap_congr_mem _ _ _ ?_
  intro t ht
  unfold entryOpt
  rw [hmatch t ht, hsch]

/-! ## Claim C1: export/import round trip -/

/-- C1 as written is false: two distinct primary identifiers whose slugged
filenames coincide (here "A B" and "a_b", both exported as a_b.json) make
the second export overwrite the first, so the reloaded store has lost the
first source and its inventory is empty instead of its original value. -/
theorem claim1_counterexample :
    (loadDatabase collideDB (saveDatabase collideDB)).map
        (fun db2 => inventory db2 (Value.vstr "A B")) ≠
      Except.ok (inventory collideDB (Value.vstr "A B")) := by
  decide

/-- C1 amended: under the well-formedness conditions of exportSafe — in
particular, distinct primary identifiers must produce distinct exported
filenames that are neither hidden nor named after a reference table, and
stored string values must not match the codec's date/datetime grammar —
running save_database and then load_database yields a store whose
inventory output is identical to the pre-export store's, for every source
identifier present in the primary table. -/
theorem claim1_export_import_amended (db : DB) (h : exportSafe db)
    (id : String) (hid : id ∈ idsOf db) :
    (loadDatabase db (saveDatabase db)).map
        (fun db2 => inventory db2 (Value.vstr id)) =
      Except.ok (inventory db (Value.vstr id)) := by
  obtain ⟨hA, hB, hC, hD, hE, hF, hG, hH, hI, hJ, hK, hL, hM⟩ := h
  obtain ⟨hcs, hcr⟩ := clearAll_spec db
  rcases loadRefPhase_spec db (clearAll db) hcs hG with ⟨db1, href, hsch1, hun1⟩
  have hempty : ∀ t ∈ inventoryTables db.schema, db1.rows t = [] := by
    intro t ht
    have htref : t ∉ db.schema.referenceTables := by
      unfold inventoryTables at ht
      rcases List.mem_cons.mp ht with h1 | h1
      · rw [h1]
        exact hC
      · have h2 := (List.mem_filter.mp h1).2
        simp only [decide_eq_true_eq, List.mem_append, List.mem_singleton] at h2
        push_neg at h2
        exact h2.1
    have htname : t ∈ db.schema.tables.map (fun t => t.name) := by
      unfold inventoryTables at ht
      rcases List.mem_cons.mp ht with h1 | h1
      · rw [h1]
        exact hB
      · exact (List.mem_filter.mp h1).1
    rw [hun1 t htref, hcr t]
    rcases List.mem_map.mp htname with ⟨ts, hts, hname⟩
    rw [if_pos (by rw [← hname]; exact hH ts hts)]
  rcases sourcePhase_spec db ⟨hA, hB, hC, hD, hE, hF, hG, hH, hI, hJ, hK, hL, hM⟩
    (idsOf db) (fun i hi => hi) db1 hsch1 with ⟨db2, hsrc, hsch2, hrows2⟩
  have hload : loadDatabase db (saveDatabase db) = .ok db2 := by
    show (do
      let withRefs ← loadRefPhase (clearAll db) (saveRefFiles db) []
      (saveSourceFiles db).foldlM
        (fun (d : DB) (f : String × JDoc) =>
          if isSourceFile d.schema f.1 then loadJson d (decodeDocHook f.2)
          else pure d)
        withRefs) = .ok db2
    rw [href]
    show (saveSourceFiles db).foldlM
        (fun (d : DB) (f : String × JDoc) =>
          if isSourceFile d.schema f.1 then loadJson d (decodeDocHook f.2)
          else pure d) db1 = .ok db2
    rw [saveSourceFiles_eq db hI hK]
    exact hsrc
  rw [hload]
  show Except.ok (inventory db2 (Value.vstr id)) = Except.ok (inventory db (Value.vstr id))
  congr 1
  refine inventory_congr db db2 (Value.vstr id) hsch2 ?_
  intro t ht
  unfold matchingRows
  rw [hsch2, hrows2 t, hempty t ht, if_pos ht, List.nil_append]
  exact filter_flatten_blocks db t id (idsOf db) hJ hid

/-- Witness for the amended C1: the example state satisfies exportSafe and
its single source round-trips with an identical inventory. -/
theorem claim1_export_import_amended_witness :
    (loadDatabase exampleDB (saveDatabase exampleDB)).map
        (fun db2 => inventory db2 (Value.vstr "Gl 229")) =
      Except.ok (inventory exampleDB (Value.vstr "Gl 229")) :=
  claim1_export_import_amended exampleDB (by decide) "Gl 229" (by decide)

end AstroDB
